import Mathlib

set_option maxRecDepth 4000

/-!
Verification of the LAI AML interpreter core bundled with the Aero kernel
(bundled/lai/core: exec.c, object.c, opregion.c, exec_impl.h).  Each claim
about the interpreter is settled against a shallow embedding of the relevant
C functions.  Machine integers are embedded as `Nat` with explicit masking
(`% 2 ^ 64` and friends) where the C relies on fixed-width wrap-around.
-/

/-- Error codes of `lai_api_error_t` from include/lai/error.h. -/
inductive LaiError where
  | errNone
  | outOfMemory
  | typeMismatch
  | noSuchNode
  | outOfBounds
  | executionFailure
  | illegalArguments
  | unexpectedResult
  | endReached
  | unsupported
  deriving DecidableEq

/-! ## Event synchronization word (exec_impl.h: lai_event_wait / signal / reset)

The event word is a 32-bit value: bits 0..30 are a saturating count
(`LAI_EVENT_COUNT`), bit 31 is the waiters flag (`LAI_EVENT_WAITERS`).
Each successful compare-and-swap of the C code is one transition of
`EventStep`; the loop iterations that do not write the word (a blocked
wait, reset with nothing to clear) do not change the state and hence need
no transition. -/

def LAI_EVENT_COUNT : Nat := 0x7FFFFFFF

def LAI_EVENT_WAITERS : Nat := 0x80000000

/-- One successful word update performed by lai_event_wait, lai_event_signal
or lai_event_reset (exec_impl.h).  `waitDec`: wait decrements a positive
count.  `waitBlock`: wait sets the waiters flag when the count is zero.
`signalInc`: signal increments the count when nobody waits (guarded by the
LAI_ENSURE that the count does not overflow into the waiters bit).
`signalWake`: signal with a waiter present writes the word to 1 and wakes one
waiter.  `resetClear`: reset zeroes a positive count when nobody waits. -/
inductive EventStep : Nat → Nat → Prop where
  | waitDec (v : Nat) : v &&& LAI_EVENT_COUNT ≠ 0 → EventStep v (v - 1)
  | waitBlock (v : Nat) : v &&& LAI_EVENT_COUNT = 0 → v &&& LAI_EVENT_WAITERS = 0 →
      EventStep v LAI_EVENT_WAITERS
  | signalInc (v : Nat) : v &&& LAI_EVENT_WAITERS = 0 →
      (v + 1) &&& LAI_EVENT_WAITERS = 0 → EventStep v (v + 1)
  | signalWake (v : Nat) : v &&& LAI_EVENT_WAITERS ≠ 0 → EventStep v 1
  | resetClear (v : Nat) : v &&& LAI_EVENT_WAITERS = 0 → v &&& LAI_EVENT_COUNT ≠ 0 →
      EventStep v 0

/-- Event words reachable from the zero word (the initial state of a fresh
event node) by the wait/signal/reset transitions. -/
def EventReachable (v : Nat) : Prop := Relation.ReflTransGen EventStep 0 v

/-- Result of lai_event_reset (exec_impl.h) on an event word: with the waiters
flag clear it zeroes a positive count (the compare-and-swap branch) and leaves
a zero count untouched; with the waiters flag set it performs no write. -/
def lai_event_reset (v : Nat) : Nat :=
  if v &&& LAI_EVENT_WAITERS = 0 then (if v &&& LAI_EVENT_COUNT ≠ 0 then 0 else v) else v

theorem eventWord_bound_of_le_count {v : Nat} (h : v ≤ LAI_EVENT_COUNT) :
    v &&& LAI_EVENT_WAITERS = 0 := by
  have hlt : v < 2 ^ 31 := lt_of_le_of_lt h (by norm_num [LAI_EVENT_COUNT])
  have : LAI_EVENT_WAITERS = 2 ^ 31 := by norm_num [LAI_EVENT_WAITERS]
  rw [this, Nat.and_two_pow, Nat.testBit_lt_two_pow hlt]
  rfl

theorem eventReachable_cases {v : Nat} (h : EventReachable v) :
    v = LAI_EVENT_WAITERS ∨ v ≤ LAI_EVENT_COUNT := by
  induction h with
  | refl => right; norm_num [LAI_EVENT_COUNT]
  | tail hr hstep ih =>
    rename_i b c
    cases hstep with
    | waitDec hw =>
      rcases ih with hW | hC
      · rw [hW] at hw
        exact absurd (by decide : LAI_EVENT_WAITERS &&& LAI_EVENT_COUNT = 0) hw
      · right; omega
    | waitBlock hc hw => left; rfl
    | signalInc hw hnext =>
      rcases ih with hW | hC
      · rw [hW] at hw
        exact absurd hw (by decide)
      · right
        by_cases heq : b + 1 = 2 ^ 31
        · rw [heq] at hnext
          exact absurd hnext (by decide)
        · norm_num [LAI_EVENT_COUNT] at hC ⊢
          omega
    | signalWake hw => right; norm_num [LAI_EVENT_COUNT]
    | resetClear hw hc => right; norm_num [LAI_EVENT_COUNT]

/-- C9: in every event-word state reachable from the zero word by the
wait/signal/reset transitions of exec_impl.h, the waiters flag being set
implies the count bits are zero; consequently lai_event_reset always leaves
the count at zero — it clears a positive count when the waiters flag is
clear, and performs no write when the waiters flag is set. -/
theorem event_waiters_implies_zero_count (v : Nat) (h : EventReachable v) :
    (v &&& LAI_EVENT_WAITERS ≠ 0 → v &&& LAI_EVENT_COUNT = 0)
    ∧ lai_event_reset v &&& LAI_EVENT_COUNT = 0
    ∧ (v &&& LAI_EVENT_WAITERS = 0 → v &&& LAI_EVENT_COUNT ≠ 0 → lai_event_reset v = 0)
    ∧ (v &&& LAI_EVENT_WAITERS ≠ 0 → lai_event_reset v = v) := by
  have hinv : v &&& LAI_EVENT_WAITERS ≠ 0 → v &&& LAI_EVENT_COUNT = 0 := by
    intro hw
    rcases eventReachable_cases h with hW | hC
    · rw [hW]; decide
    · exact absurd (eventWord_bound_of_le_count hC) hw
  refine ⟨hinv, ?_, ?_, ?_⟩
  · by_cases hw : v &&& LAI_EVENT_WAITERS = 0
    · by_cases hc : v &&& LAI_EVENT_COUNT = 0
      · simp [lai_event_reset, hw, hc]
      · simp [lai_event_reset, hw, hc]
    · have hz := hinv hw
      simpa [lai_event_reset, hw] using hz
  · intro hw hc; unfold lai_event_reset; simp [hw, hc]
  · intro hw; unfold lai_event_reset; simp [hw]

/-- Witness for C9: the state with only the waiters flag set is reachable
(via a blocking Wait on the fresh event), its count bits are zero, and Reset
leaves it unchanged. -/
theorem event_waiters_implies_zero_count_witness :
    LAI_EVENT_WAITERS &&& LAI_EVENT_COUNT = 0
    ∧ lai_event_reset LAI_EVENT_WAITERS = LAI_EVENT_WAITERS := by
  have hreach : EventReachable LAI_EVENT_WAITERS :=
    Relation.ReflTransGen.single (EventStep.waitBlock 0 (by decide) (by decide))
  have h := event_waiters_implies_zero_count LAI_EVENT_WAITERS hreach
  exact ⟨h.1 (by decide), h.2.2.2 (by decide)⟩

/-! ## Divide / Mod reduction (exec.c: lai_exec_reduce_op, DIVIDE_OP / MOD_OP)

The C computes `lhs.integer % rhs.integer` and `lhs.integer / rhs.integer`
directly, with no check that the divisor is nonzero.  The embedding returns
`none` exactly where the C performs a division by zero (undefined
behaviour). -/

/-- DIVIDE_OP case of lai_exec_reduce_op (exec.c): produces the pair
(remainder, quotient) written to operands[2] and operands[3].  The division
is unguarded in the C; `none` marks the divisor-zero case for which the C
has no defined result. -/
def divide_op_reduce (lhs rhs : Nat) : Option (Nat × Nat) :=
  if rhs = 0 then none else some (lhs % rhs, lhs / rhs)

/-- MOD_OP case of lai_exec_reduce_op (exec.c): `lhs % rhs`, unguarded in
the C; `none` marks the divisor-zero case. -/
def mod_op_reduce (lhs rhs : Nat) : Option Nat :=
  if rhs = 0 then none else some (lhs % rhs)

/-- C10: the Divide-with-remainder and Mod reductions are defined exactly
when the divisor is nonzero — the guarded error branch of the total
embedding is taken exactly on divisor zero — and under that precondition
they compute the C quotient and remainder, which for 64-bit operands never
overflow 64 bits. -/
theorem divide_mod_defined_iff_nonzero_divisor (lhs rhs : Nat) :
    ((divide_op_reduce lhs rhs).isSome ↔ rhs ≠ 0)
    ∧ ((mod_op_reduce lhs rhs).isSome ↔ rhs ≠ 0)
    ∧ (rhs ≠ 0 →
        divide_op_reduce lhs rhs = some (lhs % rhs, lhs / rhs)
        ∧ mod_op_reduce lhs rhs = some (lhs % rhs)
        ∧ (lhs < 2 ^ 64 → lhs % rhs < 2 ^ 64 ∧ lhs / rhs < 2 ^ 64)) := by
  refine ⟨?_, ?_, ?_⟩
  · unfold divide_op_reduce
    by_cases h : rhs = 0 <;> simp [h]
  · unfold mod_op_reduce
    by_cases h : rhs = 0 <;> simp [h]
  · intro h
    refine ⟨by simp [divide_op_reduce, h], by simp [mod_op_reduce, h], ?_⟩
    intro hb
    constructor
    · exact lt_of_le_of_lt (Nat.mod_le _ _) hb
    · exact lt_of_le_of_lt (Nat.div_le_self _ _) hb

/-- Witness for C10: Divide(7, 2) yields remainder 1 and quotient 3, and the
divisor-zero case has no defined result. -/
theorem divide_mod_defined_iff_nonzero_divisor_witness :
    divide_op_reduce 7 2 = some (1, 3) ∧ mod_op_reduce 7 2 = some 1
    ∧ divide_op_reduce 7 0 = none := by
  have h := (divide_mod_defined_iff_nonzero_divisor 7 2).2.2 (by decide)
  exact ⟨h.1, h.2.1, by decide⟩


/-! ## Field access width (opregion.c: lai_calculate_access_width) -/

/-- Modelled from the spec: the aml_opcodes.h header defining the FIELD_*
access-type constants is not among the shown sources; the values are the AML
FieldFlags encoding of the wire format (AnyAcc 0, ByteAcc 1, WordAcc 2,
DwordAcc 3, QwordAcc 4 in the low nibble). -/
def FIELD_ANY_ACCESS : Nat := 0

/-- Modelled from the spec: ByteAcc value of the AML FieldFlags low nibble. -/
def FIELD_BYTE_ACCESS : Nat := 1

/-- Modelled from the spec: WordAcc value of the AML FieldFlags low nibble. -/
def FIELD_WORD_ACCESS : Nat := 2

/-- Modelled from the spec: DwordAcc value of the AML FieldFlags low nibble. -/
def FIELD_DWORD_ACCESS : Nat := 3

/-- Modelled from the spec: QwordAcc value of the AML FieldFlags low nibble. -/
def FIELD_QWORD_ACCESS : Nat := 4

/-- Modelled from the spec: the acpispec header defining the address-space
identifiers is not among the shown sources; SystemMemory is address space 0
of the ACPI encoding. -/
def ACPI_OPREGION_MEMORY : Nat := 0

/-- Floor base-2 logarithm with explicit fuel (so that the kernel can
evaluate it); `log2fuel f n` is the floor log2 of `n` whenever `n < 2 ^ f`
and `n ≥ 1`. -/
def log2fuel : Nat → Nat → Nat
  | 0, _ => 0
  | fuel + 1, n => if n ≤ 1 then 0 else log2fuel fuel (n / 2) + 1

theorem log2fuel_spec (fuel : Nat) : ∀ m, 1 ≤ m → m < 2 ^ fuel →
    2 ^ log2fuel fuel m ≤ m ∧ m < 2 ^ (log2fuel fuel m + 1) ∧ log2fuel fuel m + 1 ≤ fuel := by
  induction fuel with
  | zero => intro m h1 h2; omega
  | succ fuel ih =>
    intro m h1 h2
    by_cases hm : m ≤ 1
    · have : m = 1 := by omega
      subst this
      refine ⟨?_, ?_, ?_⟩ <;> simp [log2fuel]
    · have h2m : 2 ≤ m := by omega
      have hd1 : 1 ≤ m / 2 := by omega
      have hd2 : m / 2 < 2 ^ fuel := by
        have e : (2 : Nat) ^ (fuel + 1) = 2 * 2 ^ fuel := by ring
        omega
      obtain ⟨ha, hb, hc⟩ := ih (m / 2) hd1 hd2
      have hunfold : log2fuel (fuel + 1) m = log2fuel fuel (m / 2) + 1 := by
        simp [log2fuel, hm]
      rw [hunfold]
      have e1 : (2 : Nat) ^ (log2fuel fuel (m / 2) + 1) = 2 * 2 ^ log2fuel fuel (m / 2) := by
        ring
      have e2 : (2 : Nat) ^ (log2fuel fuel (m / 2) + 1 + 1)
          = 2 * 2 ^ (log2fuel fuel (m / 2) + 1) := by ring
      omega

/-- Count of leading zeros of a 32-bit value, as __builtin_clz; meaningful
for arguments in [1, 2^32). -/
def clz32 (n : Nat) : Nat := 31 - log2fuel 32 n

/-- lai_calculate_access_width (opregion.c): the declared width for
Byte/Word/Dword/Qword access flags; for AnyAcc the field bit length rounded
up to a power of two via `1 << (32 - clz(size - 1))`, clamped to the
address-space maximum (64 for SystemMemory, else 32) and then raised to at
least 8.  `none` is the lai_panic on an invalid access-type nibble. -/
def lai_calculate_access_width (fld_flags fld_size op_address_space : Nat) : Option Nat :=
  let a := fld_flags &&& 0xF
  if a = FIELD_BYTE_ACCESS then some 8
  else if a = FIELD_WORD_ACCESS then some 16
  else if a = FIELD_DWORD_ACCESS then some 32
  else if a = FIELD_QWORD_ACCESS then some 64
  else if a = FIELD_ANY_ACCESS then
    let access0 : Nat := if fld_size > 1 then 1 <<< (32 - clz32 (fld_size - 1)) else 1
    let max_access_width : Nat := if op_address_space = ACPI_OPREGION_MEMORY then 64 else 32
    let access1 : Nat := if access0 > max_access_width then max_access_width else access0
    some (if access1 < 8 then 8 else access1)
  else none

theorem anyacc_rounds_to_next_pow2 {n : Nat} (h1 : 2 ≤ n) (h2 : n ≤ 2 ^ 31) :
    ∃ k ≤ 32, (1 <<< (32 - clz32 (n - 1)) = 2 ^ k) ∧ n ≤ 2 ^ k ∧ 2 ^ k < 2 * n := by
  have hm1 : 1 ≤ n - 1 := by omega
  have hmb : n - 1 < 2 ^ 32 := by
    have : (2 : Nat) ^ 31 < 2 ^ 32 := by norm_num
    omega
  obtain ⟨ha, hb, hc⟩ := log2fuel_spec 32 (n - 1) hm1 hmb
  have hlog31 : log2fuel 32 (n - 1) ≤ 31 := by
    by_contra hgt
    have h32 : 32 ≤ log2fuel 32 (n - 1) := by omega
    have : (2 : Nat) ^ 32 ≤ 2 ^ log2fuel 32 (n - 1) := Nat.pow_le_pow_right (by norm_num) h32
    have : (2 : Nat) ^ 32 ≤ n - 1 := le_trans this ha
    omega
  refine ⟨log2fuel 32 (n - 1) + 1, by omega, ?_, by omega, ?_⟩
  · have hshift : 32 - clz32 (n - 1) = log2fuel 32 (n - 1) + 1 := by
      unfold clz32; omega
    rw [hshift, Nat.shiftLeft_eq, one_mul]
  · rw [Nat.pow_succ]
    omega

theorem clamp_eq_max_min (x m : Nat) :
    (if (if m < x then m else x) < 8 then 8 else (if m < x then m else x))
      = max 8 (min x m) := by
  rcases le_or_lt x m with h | h
  · rw [if_neg (not_lt.mpr h), min_eq_left h]
    rcases le_or_lt 8 x with h8 | h8
    · rw [if_neg (not_lt.mpr h8), max_eq_right h8]
    · rw [if_pos h8, max_eq_left (le_of_lt h8)]
  · rw [if_pos h, min_eq_right (le_of_lt h)]
    rcases le_or_lt 8 m with h8 | h8
    · rw [if_neg (not_lt.mpr h8), max_eq_right h8]
    · rw [if_pos h8, max_eq_left (le_of_lt h8)]

/-- C5: the computed access width is the declared width 8/16/32/64 for the
Byte/Word/Dword/Qword access flags, and for AnyAcc it is the field bit
length rounded up to the next power of two (the unique power of two p with
n ≤ p < 2n, and p = 1 for a one-bit field), clamped above to 64 when the
region address space is SystemMemory and to 32 otherwise, and clamped below
to 8. -/
theorem access_width_declared_or_rounded (fld_flags fld_size op_address_space : Nat)
    (hpos : 1 ≤ fld_size) (hbound : fld_size ≤ 2 ^ 31) :
    (fld_flags &&& 0xF = FIELD_BYTE_ACCESS →
      lai_calculate_access_width fld_flags fld_size op_address_space = some 8)
    ∧ (fld_flags &&& 0xF = FIELD_WORD_ACCESS →
      lai_calculate_access_width fld_flags fld_size op_address_space = some 16)
    ∧ (fld_flags &&& 0xF = FIELD_DWORD_ACCESS →
      lai_calculate_access_width fld_flags fld_size op_address_space = some 32)
    ∧ (fld_flags &&& 0xF = FIELD_QWORD_ACCESS →
      lai_calculate_access_width fld_flags fld_size op_address_space = some 64)
    ∧ (fld_flags &&& 0xF = FIELD_ANY_ACCESS →
      ∃ p, (∃ k ≤ 32, p = 2 ^ k) ∧ fld_size ≤ p ∧ (2 ≤ fld_size → p < 2 * fld_size) ∧
        lai_calculate_access_width fld_flags fld_size op_address_space =
          some (max 8 (min p (if op_address_space = ACPI_OPREGION_MEMORY then 64 else 32)))) := by
  refine ⟨?_, ?_, ?_, ?_, ?_⟩
  · intro ha; simp [lai_calculate_access_width, ha]
  · intro ha; simp [lai_calculate_access_width, ha, FIELD_WORD_ACCESS, FIELD_BYTE_ACCESS]
  · intro ha
    simp [lai_calculate_access_width, ha, FIELD_DWORD_ACCESS, FIELD_BYTE_ACCESS,
      FIELD_WORD_ACCESS]
  · intro ha
    simp [lai_calculate_access_width, ha, FIELD_QWORD_ACCESS, FIELD_BYTE_ACCESS,
      FIELD_WORD_ACCESS, FIELD_DWORD_ACCESS]
  · intro ha
    by_cases hone : fld_size = 1
    · refine ⟨1, ⟨0, by omega, by norm_num⟩, by omega, by omega, ?_⟩
      subst hone
      have hval : lai_calculate_access_width fld_flags 1 op_address_space
          = some (if (if (if op_address_space = ACPI_OPREGION_MEMORY then (64 : Nat) else 32)
                < 1 then (if op_address_space = ACPI_OPREGION_MEMORY then (64 : Nat) else 32)
              else 1) < 8 then 8
            else (if (if op_address_space = ACPI_OPREGION_MEMORY then (64 : Nat) else 32)
                < 1 then (if op_address_space = ACPI_OPREGION_MEMORY then (64 : Nat) else 32)
              else 1)) := by
        simp [lai_calculate_access_width, ha, FIELD_ANY_ACCESS, FIELD_BYTE_ACCESS,
          FIELD_WORD_ACCESS, FIELD_DWORD_ACCESS, FIELD_QWORD_ACCESS]
      rw [hval, clamp_eq_max_min 1]
    · have h2 : 2 ≤ fld_size := by omega
      obtain ⟨k, hk32, heq, hle, hlt⟩ := anyacc_rounds_to_next_pow2 h2 hbound
      refine ⟨2 ^ k, ⟨k, hk32, rfl⟩, hle, fun _ => hlt, ?_⟩
      have hgt1 : fld_size > 1 := by omega
      have hval : lai_calculate_access_width fld_flags fld_size op_address_space
          = some (if (if (if op_address_space = ACPI_OPREGION_MEMORY then (64 : Nat) else 32)
                < 2 ^ k then (if op_address_space = ACPI_OPREGION_MEMORY then (64 : Nat) else 32)
              else 2 ^ k) < 8 then 8
            else (if (if op_address_space = ACPI_OPREGION_MEMORY then (64 : Nat) else 32)
                < 2 ^ k then (if op_address_space = ACPI_OPREGION_MEMORY then (64 : Nat) else 32)
              else 2 ^ k)) := by
        simp [lai_calculate_access_width, ha, FIELD_ANY_ACCESS, FIELD_BYTE_ACCESS,
          FIELD_WORD_ACCESS, FIELD_DWORD_ACCESS, FIELD_QWORD_ACCESS, hgt1, heq]
      rw [hval, clamp_eq_max_min (2 ^ k)]

/-- Witness for C5: a 9-bit AnyAcc field over a SystemMemory region gets a
16-bit access width (9 rounded up to the next power of two 16, inside the
[8, 64] clamp). -/
theorem access_width_declared_or_rounded_witness :
    lai_calculate_access_width 0 9 0 = some 16 ∧ (9 : Nat) ≤ 16 ∧ (16 : Nat) < 2 * 9 := by
  obtain ⟨p, hpow, hle, hlt, heqv⟩ :=
    (access_width_declared_or_rounded 0 9 0 (by decide) (by norm_num)).2.2.2.2 (by decide)
  exact ⟨by decide, by norm_num, by norm_num⟩

/-! ## Object model: integer/string/buffer conversions (object.c)

`lai_variable_t` values are embedded as a tagged sum restricted to the
payloads the conversion claims exercise: LAI_INTEGER carries a u64 (a `Nat`
kept below 2^64 by the operations), LAI_STRING a NUL-free character list
(lai_exec_string_length is the C strlen of the content), LAI_BUFFER a byte
list. -/

/-- Subset of lai_variable_t used by the conversion claims. -/
inductive LaiVar where
  | integer (v : Nat)
  | str (s : List Char)
  | buffer (b : List Nat)
  deriving DecidableEq

/-- Digit character (0-9, then uppercase A-F), as printed by lai_snprintf
for %u / %X conversions. -/
def printfDigit (d : Nat) : Char :=
  if d < 10 then Char.ofNat (48 + d) else Char.ofNat (55 + d)

/-- Digits of `n` in the given base, most significant first, accumulated in
`acc`; `fuel` bounds the recursion (21 suffices for any u64). -/
def natDigitsLoop (base : Nat) : Nat → Nat → List Char → List Char
  | 0, _, acc => acc
  | fuel + 1, n, acc =>
    if n = 0 then acc else natDigitsLoop base fuel (n / base) (printfDigit (n % base) :: acc)

/-- Modelled from the spec: the lai_snprintf implementation (core/libc.c) is
not among the shown sources, only its declaration in core/libc.h.  The %llu
and %X conversions used by lai_obj_to_decimal_string and
lai_obj_to_hex_string are modelled as standard printf rendering of the full
64-bit value: minimal decimal / uppercase-hexadecimal digits, no leading
zeros, no 0x prefix, and "0" for zero. -/
def fmtUnsigned (base n : Nat) : List Char :=
  if n = 0 then [Char.ofNat 48] else natDigitsLoop base 21 n []

/-- lai_obj_to_decimal_string (object.c), LAI_INTEGER and LAI_STRING cases:
an integer is rendered with lai_snprintf("%llu"); a string is cloned
unchanged.  The LAI_BUFFER case is not needed by any claim. -/
def lai_obj_to_decimal_string (obj : LaiVar) : Except LaiError LaiVar :=
  match obj with
  | .integer v => .ok (.str (fmtUnsigned 10 v))
  | .str s => .ok (.str s)
  | .buffer _ => .error .illegalArguments

/-- lai_obj_to_hex_string (object.c), LAI_INTEGER and LAI_STRING cases: an
integer is rendered with lai_snprintf("%X") — uppercase hex digits and no
0x prefix — and a string is cloned unchanged.  (The LAI_BUFFER case, which
does prepend 0x to every byte, is not needed by any claim.) -/
def lai_obj_to_hex_string (obj : LaiVar) : Except LaiError LaiVar :=
  match obj with
  | .integer v => .ok (.str (fmtUnsigned 16 v))
  | .str s => .ok (.str s)
  | .buffer _ => .error .illegalArguments

/-- Value of a hex digit character, per the three range checks of the hex
loop in lai_obj_to_integer (object.c); `none` is the IllegalArguments
branch. -/
def hexDigitVal (c : Char) : Option Nat :=
  if Char.ofNat 48 ≤ c ∧ c ≤ Char.ofNat 57 then some (c.toNat - 48)
  else if Char.ofNat 97 ≤ c ∧ c ≤ Char.ofNat 102 then some (c.toNat - 97 + 10)
  else if Char.ofNat 65 ≤ c ∧ c ≤ Char.ofNat 70 then some (c.toNat - 65 + 10)
  else none

/-- Hex accumulation loop of lai_obj_to_integer (object.c):
`integer = integer * 16 + v` on a u64, i.e. reduced mod 2^64 at every
step. -/
def parseHexLoop : List Char → Nat → Except LaiError Nat
  | [], acc => .ok acc
  | c :: rest, acc =>
    match hexDigitVal c with
    | some v => parseHexLoop rest ((acc * 16 + v) % 2 ^ 64)
    | none => .error .illegalArguments

/-- Decimal accumulation loop of lai_obj_to_integer (object.c):
`integer = integer * 10 + (c - 48)` on a u64, rejecting characters outside
48..57. -/
def parseDecLoop : List Char → Nat → Except LaiError Nat
  | [], acc => .ok acc
  | c :: rest, acc =>
    if Char.ofNat 48 ≤ c ∧ c ≤ Char.ofNat 57 then
      parseDecLoop rest ((acc * 10 + (c.toNat - 48)) % 2 ^ 64)
    else .error .illegalArguments

/-- Little-endian read of the first 8 bytes of a buffer
(`*(uint64_t *)buffer`, this target is little endian). -/
def leRead8 (b : List Nat) : Nat :=
  (List.range 8).foldl (fun acc i => acc + (b.getD i 0) % 256 * 2 ^ (8 * i)) 0

/-- lai_obj_to_integer (object.c): a buffer of at least 8 bytes is read as a
little-endian u64; a string starting with 0x/0X is parsed by the hex loop,
any other string by the decimal loop; an integer is cloned. -/
def lai_obj_to_integer (obj : LaiVar) : Except LaiError LaiVar :=
  match obj with
  | .buffer b =>
    if b.length < 8 then .error .illegalArguments
    else .ok (.integer (leRead8 b))
  | .str s =>
    match s with
    | c0 :: c1 :: rest =>
      if c0 = Char.ofNat 48 ∧ (c1 = Char.ofNat 120 ∨ c1 = Char.ofNat 88) then
        (parseHexLoop rest 0).map .integer
      else (parseDecLoop s 0).map .integer
    | _ => (parseDecLoop s 0).map .integer
  | .integer v => .ok (.integer v)

/-- Specification-side predicate: decimal digit characters 0-9. -/
def isDecDigitB (c : Char) : Bool := decide (Char.ofNat 48 ≤ c ∧ c ≤ Char.ofNat 57)

/-- Specification-side predicate: hexadecimal digit characters 0-9, a-f,
A-F. -/
def isHexDigitB (c : Char) : Bool :=
  decide (Char.ofNat 48 ≤ c ∧ c ≤ Char.ofNat 57)
  || decide (Char.ofNat 97 ≤ c ∧ c ≤ Char.ofNat 102)
  || decide (Char.ofNat 65 ≤ c ∧ c ≤ Char.ofNat 70)

/-- Mathematical (unreduced) value of a hex digit string. -/
def hexValSpec (s : List Char) : Nat :=
  s.foldl (fun acc c => acc * 16 + (hexDigitVal c).getD 0) 0

/-- Mathematical (unreduced) value of a decimal digit string. -/
def decValSpec (s : List Char) : Nat :=
  s.foldl (fun acc c => acc * 10 + (c.toNat - 48)) 0

/-- Leading 0x / 0X test of lai_obj_to_integer (object.c):
`string_len >= 2 && string[0] == 48 && (string[1] == 120 || string[1] == 88)`. -/
def hasHexPrefixB (s : List Char) : Bool :=
  match s with
  | c0 :: c1 :: _ =>
    decide (c0 = Char.ofNat 48) && (decide (c1 = Char.ofNat 120) || decide (c1 = Char.ofNat 88))
  | _ => false

theorem hexDigitVal_isSome (c : Char) : (hexDigitVal c).isSome = isHexDigitB c := by
  unfold hexDigitVal isHexDigitB
  by_cases h1 : Char.ofNat 48 ≤ c ∧ c ≤ Char.ofNat 57 <;>
    by_cases h2 : Char.ofNat 97 ≤ c ∧ c ≤ Char.ofNat 102 <;>
      by_cases h3 : Char.ofNat 65 ≤ c ∧ c ≤ Char.ofNat 70 <;>
        simp [h1, h2, h3]

theorem foldl_mulAdd_mod (M base : Nat) (d : Char → Nat) (s : List Char) :
    ∀ a b, a % M = b % M →
      (s.foldl (fun x c => x * base + d c) a) % M
        = (s.foldl (fun x c => x * base + d c) b) % M := by
  induction s with
  | nil => intro a b h; simpa using h
  | cons c t ih =>
    intro a b h
    simp only [List.foldl_cons]
    exact ih _ _ (Nat.ModEq.add_right (d c) (Nat.ModEq.mul_right base h))

theorem parseHexLoop_spec (s : List Char) : ∀ acc, acc < 2 ^ 64 →
    parseHexLoop s acc =
      if s.all isHexDigitB then
        .ok ((s.foldl (fun x c => x * 16 + (hexDigitVal c).getD 0) acc) % 2 ^ 64)
      else .error .illegalArguments := by
  induction s with
  | nil =>
    intro acc hacc
    simp only [parseHexLoop, List.all_nil, if_true, List.foldl_nil]
    congr 1
    omega
  | cons c t ih =>
    intro acc hacc
    rcases hv : hexDigitVal c with _ | v
    · have hc : isHexDigitB c = false := by
        rw [← hexDigitVal_isSome, hv]; rfl
      simp [parseHexLoop, hv, hc]
    · have hc : isHexDigitB c = true := by
        rw [← hexDigitVal_isSome, hv]; rfl
      have hstep := ih ((acc * 16 + v) % 2 ^ 64) (Nat.mod_lt _ (by norm_num))
      simp only [parseHexLoop, hv, List.all_cons, hc, Bool.true_and, List.foldl_cons,
        hv, Option.getD_some]
      rw [hstep]
      by_cases hall : t.all isHexDigitB
      · simp only [hall, if_pos]
        congr 1
        exact foldl_mulAdd_mod (2 ^ 64) 16 _ t _ _ (Nat.mod_mod_of_dvd _ dvd_rfl)
      · simp [hall]

theorem parseDecLoop_spec (s : List Char) : ∀ acc, acc < 2 ^ 64 →
    parseDecLoop s acc =
      if s.all isDecDigitB then
        .ok ((s.foldl (fun x c => x * 10 + (c.toNat - 48)) acc) % 2 ^ 64)
      else .error .illegalArguments := by
  induction s with
  | nil =>
    intro acc hacc
    simp only [parseDecLoop, List.all_nil, if_true, List.foldl_nil]
    congr 1
    omega
  | cons c t ih =>
    intro acc hacc
    by_cases hc : Char.ofNat 48 ≤ c ∧ c ≤ Char.ofNat 57
    · have hcb : isDecDigitB c = true := by simp [isDecDigitB, hc]
      have hstep := ih ((acc * 10 + (c.toNat - 48)) % 2 ^ 64) (Nat.mod_lt _ (by norm_num))
      simp only [parseDecLoop, if_pos hc, List.all_cons, hcb, Bool.true_and, List.foldl_cons]
      rw [hstep]
      by_cases hall : t.all isDecDigitB
      · simp only [hall, if_pos]
        congr 1
        exact foldl_mulAdd_mod (2 ^ 64) 10 _ t _ _ (Nat.mod_mod_of_dvd _ dvd_rfl)
      · simp [hall]
    · have hcb : isDecDigitB c = false := by simp [isDecDigitB, hc]
      simp [parseDecLoop, hc, hcb]

instance instDecEqExceptLai : DecidableEq (Except LaiError LaiVar) := fun x y =>
  match x, y with
  | .ok a, .ok b =>
    if h : a = b then .isTrue (congrArg Except.ok h)
    else .isFalse (fun hh => h (Except.ok.inj hh))
  | .error a, .error b =>
    if h : a = b then .isTrue (congrArg Except.error h)
    else .isFalse (fun hh => h (Except.error.inj hh))
  | .ok _, .error _ => .isFalse (fun hh => Except.noConfusion hh)
  | .error _, .ok _ => .isFalse (fun hh => Except.noConfusion hh)

/-- C7 (amended): ToInteger on a string succeeds returning the hexadecimal
value of the digits after the prefix reduced mod 2^64 when the string has a
0x/0X prefix and only hex digits follow; succeeds returning the decimal
value reduced mod 2^64 when there is no such prefix and all characters are
decimal digits; and fails with IllegalArguments in every other case. -/
theorem to_integer_string_characterization (s : List Char) :
    lai_obj_to_integer (.str s) =
      if hasHexPrefixB s then
        (if (s.drop 2).all isHexDigitB then
          .ok (.integer (hexValSpec (s.drop 2) % 2 ^ 64))
        else .error .illegalArguments)
      else
        (if s.all isDecDigitB then .ok (.integer (decValSpec s % 2 ^ 64))
        else .error .illegalArguments) := by
  match s with
  | [] =>
    simp only [lai_obj_to_integer, hasHexPrefixB, Bool.false_eq_true, if_false,
      List.all_nil, if_true, decValSpec, List.foldl_nil, parseDecLoop, Except.map]
    rfl
  | [c0] =>
    rw [show lai_obj_to_integer (.str [c0]) = (parseDecLoop [c0] 0).map .integer from rfl]
    rw [parseDecLoop_spec [c0] 0 (by norm_num)]
    simp only [hasHexPrefixB, Bool.false_eq_true, if_false, decValSpec]
    by_cases h : ([c0]).all isDecDigitB <;> simp [h, Except.map]
  | c0 :: c1 :: rest =>
    by_cases hpre : c0 = Char.ofNat 48 ∧ (c1 = Char.ofNat 120 ∨ c1 = Char.ofNat 88)
    · have hpb : hasHexPrefixB (c0 :: c1 :: rest) = true := by
        rcases hpre.2 with h | h <;> simp [hasHexPrefixB, hpre.1, h]
      rw [show lai_obj_to_integer (.str (c0 :: c1 :: rest))
            = (parseHexLoop rest 0).map .integer by simp [lai_obj_to_integer, hpre]]
      rw [parseHexLoop_spec rest 0 (by norm_num)]
      simp only [hpb, if_true, List.drop_succ_cons, List.drop_zero, hexValSpec]
      by_cases h : rest.all isHexDigitB <;> simp [h, Except.map]
    · have hpb : hasHexPrefixB (c0 :: c1 :: rest) = false := by
        simp only [hasHexPrefixB]
        rcases not_and_or.mp hpre with h | h
        · simp [h]
        · push_neg at h
          simp [h.1, h.2]
      rw [show lai_obj_to_integer (.str (c0 :: c1 :: rest))
            = (parseDecLoop (c0 :: c1 :: rest) 0).map .integer by
          simp [lai_obj_to_integer, hpre]]
      rw [parseDecLoop_spec _ 0 (by norm_num)]
      simp only [hpb, Bool.false_eq_true, if_false, decValSpec]
      by_cases h : ((c0 :: c1 :: rest)).all isDecDigitB <;> simp [h, Except.map]

/-- Counterexample for C7 as stated: the 17-digit hex string
"0x10000000000000000" parses successfully but the u64 accumulator wraps, so
the result 0 is not the hexadecimal value 2^64 of the digits. -/
theorem to_integer_hex_wraps_counterexample :
    lai_obj_to_integer (.str ['0', 'x', '1', '0', '0', '0', '0', '0', '0', '0', '0', '0',
        '0', '0', '0', '0', '0', '0', '0'])
      = .ok (.integer 0)
    ∧ hexValSpec ['1', '0', '0', '0', '0', '0', '0', '0', '0', '0', '0',
        '0', '0', '0', '0', '0', '0'] = 2 ^ 64
    ∧ (0 : Nat) ≠ 2 ^ 64 := by
  refine ⟨by decide, by decide, by decide⟩

/-! ## Round trips ToInteger(ToHexString) and ToInteger(ToDecimalString) -/

/-- Composition ToHexString then ToInteger on an integer operand. -/
def hexRound (x : Nat) : Except LaiError LaiVar :=
  (lai_obj_to_hex_string (.integer x)).bind lai_obj_to_integer

/-- Composition ToDecimalString then ToInteger on an integer operand. -/
def decRound (x : Nat) : Except LaiError LaiVar :=
  (lai_obj_to_decimal_string (.integer x)).bind lai_obj_to_integer

/-- C3: the decimal round trip holds on the claimed inputs, but the hex
round trip fails: lai_obj_to_hex_string renders an integer with "%X" and no
0x prefix (despite the comment above it saying the numbers should be
prefixed with 0x), so lai_obj_to_integer re-parses the digits as decimal —
0xFFFFFFFFFFFFFFFF round-trips to an IllegalArguments error and 16
round-trips to 10. -/
theorem hex_roundtrip_fails_decimal_roundtrip_holds :
    decRound 0 = .ok (.integer 0)
    ∧ decRound 1 = .ok (.integer 1)
    ∧ decRound 0xFFFFFFFFFFFFFFFF = .ok (.integer 0xFFFFFFFFFFFFFFFF)
    ∧ decRound 0x123456789ABCDEF = .ok (.integer 0x123456789ABCDEF)
    ∧ hexRound 0xFFFFFFFFFFFFFFFF = .error .illegalArguments
    ∧ hexRound 16 = .ok (.integer 10)
    ∧ (.ok (.integer 10) : Except LaiError LaiVar) ≠ .ok (.integer 16) := by
  exact ⟨by decide, by decide, by decide, by decide, by decide, by decide, by decide⟩

/-! ## Buffer concatenation (exec.c: lai_exec_reduce_op, CONCAT_OP) -/

/-- CONCAT_OP reduction for two buffer operands (exec.c, LAI_BUFFER case):
the result buffer is created zero-filled with size b0size + b1size, then
memcpy(result_buffer, buffer0, b0size) and
memcpy(result_buffer + b0size, buffer1, b0size) — the second copy length is
b0size in the source, not b1size.  The copy is in bounds only when
|b0| ≤ |b1|; the model takes the first |b0| bytes of b1 and leaves the
zero fill beyond them. -/
def concat_op_buffers (b0 b1 : List Nat) : List Nat :=
  b0 ++ (b1.take b0.length ++ List.replicate (b1.length - b0.length) 0)

/-- C8: Concat of two buffers produces the right size but the wrong bytes —
with b0 = [] and b1 = [1] the single copied-over byte count is |b0| = 0, so
the result is the zero fill [0] instead of [1]; with b0 = [2] and b1 = [7, 9]
only one byte of b1 is copied, giving [2, 7, 0] instead of [2, 7, 9]. -/
theorem concat_buffers_drops_second_operand_bytes :
    concat_op_buffers [] [1] = [0]
    ∧ ([0] : List Nat) ≠ [1]
    ∧ (concat_op_buffers [] [1]).length = 0 + 1
    ∧ concat_op_buffers [2] [7, 9] = [2, 7, 0]
    ∧ ([2, 7, 0] : List Nat) ≠ [2, 7, 9]
    ∧ (concat_op_buffers [2] [7, 9]).length = 1 + 2 := by
  exact ⟨by decide, by decide, by decide, by decide, by decide, by decide⟩

/-! ## Field / OperationRegion bit-level I/O (opregion.c)

Byte stores (the operation region seen through lai_perform_read/write, and
the byte buffers passed to lai_read_field_internal /
lai_write_field_internal) are embedded as total byte functions `Nat → Nat`
whose values are kept below 256 (`WfBytes`).  The C loops, which advance by
at least one bit per iteration, are written with an explicit fuel equal to
the total bit count so that the kernel can evaluate them.

One caveat is recorded here once: the C mask expressions
`(UINT64_C(1) << access_bits) - 1` are computed below in unbounded
arithmetic.  For access_bits ≤ 63 this is exactly the C value; for a chunk
of exactly 64 bits the C shift is undefined and the embedding takes the
all-ones value the surrounding code evidently intends. -/

/-- Byte store: index to byte value. -/
def ByteFn : Type := Nat → Nat

/-- All byte values of the store are in range. -/
def WfBytes (f : ByteFn) : Prop := ∀ i, f i < 256

/-- Bit `b` of a little-endian byte store. -/
def bitOf (f : ByteFn) (b : Nat) : Bool := (f (b / 8)).testBit (b % 8)

/-- Pointwise byte update. -/
def setByte (f : ByteFn) (i v : Nat) : ByteFn := fun j => if j = i then v else f j

/-- Loop body of lai_buffer_put_at (opregion.c): per iteration, OR the next
sub-byte slice of `value` into the byte containing bit
`bit_offset + progress`.  `fuel ≥ num_bits - progress` suffices since every
iteration advances `progress` by at least one bit. -/
def put_at_loop (value bit_offset num_bits : Nat) :
    Nat → ByteFn → Nat → ByteFn
  | 0, buffer, _ => buffer
  | fuel + 1, buffer, progress =>
    if progress < num_bits then
      let in_byte_offset := (bit_offset + progress) % 8
      let access_size := min (num_bits - progress) (8 - in_byte_offset)
      let mask := (1 <<< access_size) - 1
      let idx := (bit_offset + progress) / 8
      let buffer2 := setByte buffer idx
        (buffer idx ||| (((value >>> progress) &&& mask) <<< in_byte_offset))
      put_at_loop value bit_offset num_bits fuel buffer2 (progress + access_size)
    else buffer

/-- lai_buffer_put_at (opregion.c): OR the low `num_bits` bits of `value`
into the byte store starting at bit `bit_offset` (little endian). -/
def lai_buffer_put_at (buffer : ByteFn) (value bit_offset num_bits : Nat) : ByteFn :=
  put_at_loop value bit_offset num_bits num_bits buffer 0

/-- Loop body of lai_buffer_get_at (opregion.c). -/
def get_at_loop (buffer : ByteFn) (bit_offset num_bits : Nat) :
    Nat → Nat → Nat → Nat
  | 0, _, value => value
  | fuel + 1, progress, value =>
    if progress < num_bits then
      let in_byte_offset := (bit_offset + progress) % 8
      let access_size := min (num_bits - progress) (8 - in_byte_offset)
      let mask := (1 <<< access_size) - 1
      let value2 := value |||
        (((buffer ((bit_offset + progress) / 8) >>> in_byte_offset) &&& mask) <<< progress)
      get_at_loop buffer bit_offset num_bits fuel (progress + access_size) value2
    else value

/-- lai_buffer_get_at (opregion.c): extract `num_bits` bits starting at bit
`bit_offset` of the byte store (little endian). -/
def lai_buffer_get_at (buffer : ByteFn) (bit_offset num_bits : Nat) : Nat :=
  get_at_loop buffer bit_offset num_bits num_bits 0 0

/-- Little-endian load of `n` bytes at byte `offset`. -/
def readBytesLE (region : ByteFn) (offset : Nat) : Nat → Nat
  | 0 => 0
  | n + 1 => readBytesLE region offset n ||| (region (offset + n) <<< (8 * n))

/-- Little-endian store of the low `8 * n` bits of `value` at byte
`offset`. -/
def writeBytesLE (region : ByteFn) (offset value : Nat) : Nat → ByteFn
  | 0 => region
  | n + 1 => setByte (writeBytesLE region offset value n) (offset + n)
      ((value >>> (8 * n)) &&& 255)

/-- Modelled from the spec: lai_perform_read (opregion.c) dispatches by
address space to host memory / port / PCI transports that are not part of
the interpreter; per §4.4 and §6 all of them are plain access_size-bit
little-endian loads at a byte offset, embedded as reads of the region byte
array. -/
def lai_perform_read (region : ByteFn) (access_size offset : Nat) : Nat :=
  readBytesLE region offset (access_size / 8)

/-- Modelled from the spec: lai_perform_write (opregion.c), the store
counterpart of lai_perform_read over the region byte array. -/
def lai_perform_write (region : ByteFn) (access_size offset value : Nat) : ByteFn :=
  writeBytesLE region offset value (access_size / 8)

/-- Modelled from the spec: update-rule values of the AML FieldFlags
(bits 5..6): Preserve 0, WriteAsOnes 1, WriteAsZeros 2; the defining header
is not among the shown sources. -/
def FIELD_PRESERVE : Nat := 0

/-- Modelled from the spec: WriteAsOnes update-rule value. -/
def FIELD_WRITE_ONES : Nat := 1

/-- Modelled from the spec: WriteAsZeros update-rule value. -/
def FIELD_WRITE_ZEROES : Nat := 2

/-- The C `fld_offset & ~(access_size - 1)` (64-bit complement), the
bit address of the access unit containing the field start. -/
def alignDownBits (fld_offset access_size : Nat) : Nat :=
  fld_offset &&& ((2 ^ 64 - 1) ^^^ (access_size - 1))

/-- Loop body of lai_read_field_internal (opregion.c): per iteration read
one aligned access unit from the region, extract the chunk's bit slice and
OR it into the destination at `progress`. -/
def read_field_loop (region : ByteFn) (fld_offset fld_size access_size : Nat) :
    Nat → ByteFn → Nat → Nat → ByteFn
  | 0, dest, _, _ => dest
  | fuel + 1, dest, progress, offset =>
    if progress < fld_size then
      let bit_offset := (fld_offset + progress) % access_size
      let access_bits := min (fld_size - progress) (access_size - bit_offset)
      let mask := (1 <<< access_bits) - 1
      let value := lai_perform_read region access_size offset
      let value2 := (value >>> bit_offset) &&& mask
      let dest2 := lai_buffer_put_at dest value2 progress access_bits
      read_field_loop region fld_offset fld_size access_size fuel dest2
        (progress + access_bits) (offset + access_size / 8)
    else dest

/-- lai_read_field_internal (opregion.c) for a plain Field: computes the
access width from the field flags, then iterates access-width-aligned
units, extracting each bit slice into `dest`.  `none` is the access-width
panic. -/
def lai_read_field_internal (dest region : ByteFn)
    (fld_offset fld_size fld_flags op_address_space : Nat) : Option ByteFn :=
  (lai_calculate_access_width fld_flags fld_size op_address_space).map fun access_size =>
    read_field_loop region fld_offset fld_size access_size fld_size dest 0
      (alignDownBits fld_offset access_size / 8)

/-- Loop body of lai_write_field_internal (opregion.c): per iteration
compute the unit's base value per the update rule (Preserve reads the
region, WriteOnes/WriteZeroes use constants; anything else panics), clear
the chunk's bits, OR in the new bits from the source buffer, and store the
unit back. -/
def write_field_loop (src : ByteFn) (fld_offset fld_size access_size write_flag : Nat) :
    Nat → ByteFn → Nat → Nat → Option ByteFn
  | 0, region, _, _ => some region
  | fuel + 1, region, progress, offset =>
    if progress < fld_size then
      let bit_offset := (fld_offset + progress) % access_size
      let access_bits := min (fld_size - progress) (access_size - bit_offset)
      let mask := ((1 <<< access_bits) - 1) <<< bit_offset
      let value0 : Option Nat :=
        if write_flag = FIELD_PRESERVE then
          some (lai_perform_read region access_size offset)
        else if write_flag = FIELD_WRITE_ONES then some 0xFFFFFFFFFFFFFFFF
        else if write_flag = FIELD_WRITE_ZEROES then some 0
        else none
      match value0 with
      | none => none
      | some v =>
        let v2 := v &&& ((2 ^ 64 - 1) ^^^ mask)
        let new_val := lai_buffer_get_at src progress access_bits
        let v3 := v2 ||| ((new_val <<< bit_offset) &&& mask)
        write_field_loop src fld_offset fld_size access_size write_flag fuel
          (lai_perform_write region access_size offset v3)
          (progress + access_bits) (offset + access_size / 8)
    else some region

/-- lai_write_field_internal (opregion.c) for a plain Field: computes the
access width, then iterates access-width-aligned units performing the
read-modify-write (or constant-fill) unit update.  The write flag is bits
5..6 of the field flags (`(fld_flags >> 5) & 0x0F` in the source). -/
def lai_write_field_internal (src region : ByteFn)
    (fld_offset fld_size fld_flags op_address_space : Nat) : Option ByteFn :=
  match lai_calculate_access_width fld_flags fld_size op_address_space with
  | none => none
  | some access_size =>
    write_field_loop src fld_offset fld_size access_size ((fld_flags >>> 5) &&& 0xF)
      fld_size region 0 (alignDownBits fld_offset access_size / 8)

theorem bitOf_setByte (f : ByteFn) (i v b : Nat) :
    bitOf (setByte f i v) b = if b / 8 = i then v.testBit (b % 8) else bitOf f b := by
  unfold bitOf setByte
  by_cases h : b / 8 = i <;> simp [h]

theorem slice_testBit (value progress asize in_off k : Nat) :
    ((((value >>> progress) &&& ((1 <<< asize) - 1)) <<< in_off).testBit k)
      = (decide (in_off ≤ k) && decide (k - in_off < asize)
          && value.testBit (progress + (k - in_off))) := by
  rw [Nat.testBit_shiftLeft, Nat.testBit_land, Nat.shiftLeft_eq, one_mul,
    Nat.testBit_two_pow_sub_one, Nat.testBit_shiftRight]
  by_cases h1 : in_off ≤ k <;> by_cases h2 : k - in_off < asize <;>
    simp [h1, h2, ge_iff_le]

theorem or_byte_lt (x y : Nat) (hx : x < 256) (hy : y < 256) : x ||| y < 256 := by
  have h8 : (2 : Nat) ^ 8 = 256 := by norm_num
  have hx8 : x < 2 ^ 8 := by omega
  have hy8 : y < 2 ^ 8 := by omega
  have := Nat.or_lt_two_pow hx8 hy8
  omega

theorem put_at_loop_spec (value bit_offset num_bits : Nat) :
    ∀ fuel progress buffer, num_bits - progress ≤ fuel → WfBytes buffer →
      WfBytes (put_at_loop value bit_offset num_bits fuel buffer progress)
      ∧ ∀ b, bitOf (put_at_loop value bit_offset num_bits fuel buffer progress) b
          = (bitOf buffer b
             || (decide (bit_offset + progress ≤ b) && decide (b < bit_offset + num_bits)
                 && value.testBit (b - bit_offset))) := by
  intro fuel
  induction fuel with
  | zero =>
    intro progress buffer hfuel hwf
    refine ⟨hwf, fun b => ?_⟩
    simp only [put_at_loop]
    by_cases h1 : bit_offset + progress ≤ b
    · by_cases h2 : b < bit_offset + num_bits
      · exfalso; omega
      · simp [h2]
    · simp [h1]
  | succ fuel ih =>
    intro progress buffer hfuel hwf
    by_cases hlt : progress < num_bits
    · set io := (bit_offset + progress) % 8 with hio
      set az := min (num_bits - progress) (8 - io) with haz
      set idx := (bit_offset + progress) / 8 with hidxd
      set slice := ((value >>> progress) &&& ((1 <<< az) - 1)) <<< io with hslice
      set buffer2 := setByte buffer idx (buffer idx ||| slice) with hb2
      have hunf : put_at_loop value bit_offset num_bits (fuel + 1) buffer progress
          = put_at_loop value bit_offset num_bits fuel buffer2 (progress + az) := by
        simp only [put_at_loop, if_pos hlt]
      have hio_lt : io < 8 := Nat.mod_lt _ (by norm_num)
      have haz_le : az ≤ 8 - io := min_le_right _ _
      have haz_le2 : az ≤ num_bits - progress := min_le_left _ _
      have haz_pos : 1 ≤ az := by omega
      have hidx : 8 * idx + io = bit_offset + progress := by omega
      have hslice_lt : slice < 256 := by
        rw [hslice, Nat.shiftLeft_eq]
        have hm : (value >>> progress) &&& ((1 <<< az) - 1) < 2 ^ az := by
          rw [Nat.shiftLeft_eq, one_mul]
          have h1 := Nat.and_le_right (n := value >>> progress) (m := 2 ^ az - 1)
          have h2 : (1 : Nat) ≤ 2 ^ az := Nat.one_le_two_pow
          omega
        calc ((value >>> progress) &&& ((1 <<< az) - 1)) * 2 ^ io
            < 2 ^ az * 2 ^ io := by
              exact mul_lt_mul_of_pos_right hm (pow_pos (by norm_num) io)
          _ = 2 ^ (az + io) := by rw [← pow_add]
          _ ≤ 2 ^ 8 := Nat.pow_le_pow_right (by norm_num) (by omega)
          _ = 256 := by norm_num
      have hwf2 : WfBytes buffer2 := by
        intro j
        rw [hb2]
        unfold setByte
        by_cases hj : j = idx
        · rw [if_pos hj]
          exact or_byte_lt _ _ (hwf idx) hslice_lt
        · rw [if_neg hj]; exact hwf j
      obtain ⟨ihwf, ihbits⟩ := ih (progress + az) buffer2 (by omega) hwf2
      rw [hunf]
      refine ⟨ihwf, fun b => ?_⟩
      rw [ihbits b, hb2, bitOf_setByte]
      by_cases hb8 : b / 8 = idx
      · rw [if_pos hb8, Nat.testBit_lor]
        have hbuf : (buffer idx).testBit (b % 8) = bitOf buffer b := by
          unfold bitOf; rw [hb8]
        rw [hbuf, hslice, slice_testBit]
        by_cases hin1 : bit_offset + progress ≤ b
        · by_cases hin2 : b < bit_offset + progress + az
          · have h1 : io ≤ b % 8 := by omega
            have h2 : b % 8 - io < az := by omega
            have h3 : progress + (b % 8 - io) = b - bit_offset := by omega
            have hc1b : b < bit_offset + num_bits := by omega
            have hc2 : ¬ (bit_offset + (progress + az) ≤ b) := by omega
            rw [h3]
            simp [h1, h2, hin1, hc1b, hc2, Bool.or_assoc]
          · have h2 : ¬ (b % 8 - io < az) := by omega
            have hc2 : bit_offset + (progress + az) ≤ b := by omega
            simp [h2, hin1, hc2]
        · have h1 : ¬ (io ≤ b % 8) := by omega
          have hc2 : ¬ (bit_offset + (progress + az) ≤ b) := by omega
          simp [h1, hin1, hc2]
      · rw [if_neg hb8]
        have hout : b < 8 * idx ∨ 8 * idx + 8 ≤ b := by omega
        rcases hout with hsmall | hbig
        · have hc1 : ¬ (bit_offset + progress ≤ b) := by omega
          have hc2 : ¬ (bit_offset + (progress + az) ≤ b) := by omega
          simp [hc1, hc2]
        · have hc1 : bit_offset + progress ≤ b := by omega
          have hc2 : bit_offset + (progress + az) ≤ b := by omega
          simp [hc1, hc2]
    · simp only [put_at_loop, if_neg hlt]
      refine ⟨hwf, fun b => ?_⟩
      by_cases h1 : bit_offset + progress ≤ b
      · by_cases h2 : b < bit_offset + num_bits
        · exfalso; omega
        · simp [h2]
      · simp [h1]

theorem lai_buffer_put_at_spec (buffer : ByteFn) (value bit_offset num_bits : Nat)
    (hwf : WfBytes buffer) :
    WfBytes (lai_buffer_put_at buffer value bit_offset num_bits)
    ∧ ∀ b, bitOf (lai_buffer_put_at buffer value bit_offset num_bits) b
        = (bitOf buffer b
           || (decide (bit_offset ≤ b) && decide (b < bit_offset + num_bits)
               && value.testBit (b - bit_offset))) := by
  obtain ⟨h1, h2⟩ := put_at_loop_spec value bit_offset num_bits num_bits 0 buffer
    (by omega) hwf
  exact ⟨h1, fun b => by simpa using h2 b⟩

theorem get_at_loop_spec (buffer : ByteFn) (bit_offset num_bits : Nat) :
    ∀ fuel progress value, num_bits - progress ≤ fuel →
      ∀ i, (get_at_loop buffer bit_offset num_bits fuel progress value).testBit i
        = (value.testBit i
           || (decide (progress ≤ i) && decide (i < num_bits)
               && bitOf buffer (bit_offset + i))) := by
  intro fuel
  induction fuel with
  | zero =>
    intro progress value hfuel i
    simp only [get_at_loop]
    by_cases h1 : progress ≤ i
    · by_cases h2 : i < num_bits
      · exfalso; omega
      · simp [h2]
    · simp [h1]
  | succ fuel ih =>
    intro progress value hfuel i
    by_cases hlt : progress < num_bits
    · set io := (bit_offset + progress) % 8 with hio
      set az := min (num_bits - progress) (8 - io) with haz
      set idx := (bit_offset + progress) / 8 with hidxd
      set value2 := value |||
        (((buffer idx >>> io) &&& ((1 <<< az) - 1)) <<< progress) with hv2
      have hunf : get_at_loop buffer bit_offset num_bits (fuel + 1) progress value
          = get_at_loop buffer bit_offset num_bits fuel (progress + az) value2 := by
        simp only [get_at_loop, if_pos hlt]
      have hio_lt : io < 8 := Nat.mod_lt _ (by norm_num)
      have haz_le : az ≤ 8 - io := min_le_right _ _
      have haz_le2 : az ≤ num_bits - progress := min_le_left _ _
      have haz_pos : 1 ≤ az := by omega
      have hidx : 8 * idx + io = bit_offset + progress := by omega
      rw [hunf, ih (progress + az) value2 (by omega) i, hv2, Nat.testBit_lor,
        slice_testBit]
      by_cases hin1 : progress ≤ i
      · by_cases hin2 : i < progress + az
        · have h2 : i - progress < az := by omega
          have hbyte : (buffer idx).testBit (io + (i - progress))
              = bitOf buffer (bit_offset + i) := by
            unfold bitOf
            have e1 : (bit_offset + i) / 8 = idx := by omega
            have e2 : (bit_offset + i) % 8 = io + (i - progress) := by omega
            rw [e1, e2]
          have hc1b : i < num_bits := by omega
          have hc2 : ¬ (progress + az ≤ i) := by omega
          rw [hbyte]
          simp [hin1, h2, hc1b, hc2, Bool.or_assoc]
        · have h2 : ¬ (i - progress < az) := by omega
          have hc2 : progress + az ≤ i := by omega
          simp [h2, hin1, hc2]
      · have hc2 : ¬ (progress + az ≤ i) := by omega
        simp [hin1, hc2]
    · simp only [get_at_loop, if_neg hlt]
      by_cases h1 : progress ≤ i
      · by_cases h2 : i < num_bits
        · exfalso; omega
        · simp [h2]
      · simp [h1]

theorem lai_buffer_get_at_spec (buffer : ByteFn) (bit_offset num_bits i : Nat) :
    (lai_buffer_get_at buffer bit_offset num_bits).testBit i
      = (decide (i < num_bits) && bitOf buffer (bit_offset + i)) := by
  have h := get_at_loop_spec buffer bit_offset num_bits num_bits 0 0 (by omega) i
  simpa [lai_buffer_get_at, Nat.zero_testBit] using h

theorem readBytesLE_testBit (region : ByteFn) (hwf : WfBytes region) (offset : Nat) :
    ∀ n i, (readBytesLE region offset n).testBit i
      = (decide (i < 8 * n) && bitOf region (8 * offset + i)) := by
  intro n
  induction n with
  | zero => intro i; simp [readBytesLE, Nat.zero_testBit]
  | succ n ihn =>
    intro i
    simp only [readBytesLE, Nat.testBit_lor, ihn i, Nat.testBit_shiftLeft]
    by_cases h1 : i < 8 * n
    · have h2 : ¬ (8 * n ≤ i) := by omega
      have h3 : i < 8 * (n + 1) := by omega
      simp [h1, h2, h3, ge_iff_le]
    · by_cases h2 : i < 8 * (n + 1)
      · have h3 : 8 * n ≤ i := by omega
        have h4 : (region (offset + n)).testBit (i - 8 * n)
            = bitOf region (8 * offset + i) := by
          unfold bitOf
          have e1 : (8 * offset + i) / 8 = offset + n := by omega
          have e2 : (8 * offset + i) % 8 = i - 8 * n := by omega
          rw [e1, e2]
        simp [h1, h2, h3, h4, ge_iff_le]
      · have h3 : 8 * n ≤ i := by omega
        have h4 : (region (offset + n)).testBit (i - 8 * n) = false := by
          apply Nat.testBit_lt_two_pow
          calc region (offset + n) < 256 := hwf _
            _ = 2 ^ 8 := by norm_num
            _ ≤ 2 ^ (i - 8 * n) := Nat.pow_le_pow_right (by norm_num) (by omega)
        simp [h1, h2, h3, h4, ge_iff_le]

theorem writeBytesLE_spec (region : ByteFn) (offset value : Nat) (hwf : WfBytes region) :
    ∀ n, WfBytes (writeBytesLE region offset value n)
      ∧ ∀ b, bitOf (writeBytesLE region offset value n) b
          = if 8 * offset ≤ b ∧ b < 8 * offset + 8 * n then value.testBit (b - 8 * offset)
            else bitOf region b := by
  intro n
  induction n with
  | zero =>
    refine ⟨hwf, fun b => ?_⟩
    rw [if_neg (by omega)]
    rfl
  | succ n ihn =>
    obtain ⟨ihwf, ihbits⟩ := ihn
    constructor
    · intro j
      simp only [writeBytesLE]
      unfold setByte
      by_cases hj : j = offset + n
      · rw [if_pos hj]
        have := Nat.and_le_right (n := value >>> (8 * n)) (m := 255)
        omega
      · rw [if_neg hj]; exact ihwf j
    · intro b
      simp only [writeBytesLE]
      rw [bitOf_setByte]
      by_cases hb8 : b / 8 = offset + n
      · rw [if_pos hb8]
        have h255 : (255 : Nat) = 2 ^ 8 - 1 := by norm_num
        rw [h255, Nat.testBit_land, Nat.testBit_two_pow_sub_one, Nat.testBit_shiftRight]
        have e1 : 8 * n + b % 8 = b - 8 * offset := by omega
        have hcond : 8 * offset ≤ b ∧ b < 8 * offset + 8 * (n + 1) := by omega
        rw [e1, if_pos hcond]
        simp [show b % 8 < 8 from Nat.mod_lt _ (by norm_num)]
      · rw [if_neg hb8, ihbits b]
        by_cases hc : 8 * offset ≤ b ∧ b < 8 * offset + 8 * n
        · rw [if_pos hc, if_pos (by omega)]
        · rw [if_neg hc, if_neg (by omega)]

theorem read_field_loop_spec (region : ByteFn) (fld_offset fld_size access_size : Nat)
    (hreg : WfBytes region) (has8 : access_size % 8 = 0) (haspos : 0 < access_size) :
    ∀ fuel progress offset dest, fld_size - progress ≤ fuel → WfBytes dest →
      (progress < fld_size →
        8 * offset + (fld_offset + progress) % access_size = fld_offset + progress
        ∧ access_size ∣ 8 * offset) →
      WfBytes (read_field_loop region fld_offset fld_size access_size fuel dest progress offset)
      ∧ ∀ b, bitOf
          (read_field_loop region fld_offset fld_size access_size fuel dest progress offset) b
          = (bitOf dest b
             || (decide (progress ≤ b) && decide (b < fld_size)
                 && bitOf region (fld_offset + b))) := by
  intro fuel
  induction fuel with
  | zero =>
    intro progress offset dest hfuel hwf _
    refine ⟨hwf, fun b => ?_⟩
    simp only [read_field_loop]
    by_cases h1 : progress ≤ b
    · by_cases h2 : b < fld_size
      · exfalso; omega
      · simp [h2]
    · simp [h1]
  | succ fuel ih =>
    intro progress offset dest hfuel hwf halign
    by_cases hlt : progress < fld_size
    · obtain ⟨hal, hdvd⟩ := halign hlt
      set r := (fld_offset + progress) % access_size with hrd
      set ab := min (fld_size - progress) (access_size - r) with habd
      set value := lai_perform_read region access_size offset with hvald
      set value2 := (value >>> r) &&& ((1 <<< ab) - 1) with hval2d
      set dest2 := lai_buffer_put_at dest value2 progress ab with hd2
      have hunf : read_field_loop region fld_offset fld_size access_size (fuel + 1)
            dest progress offset
          = read_field_loop region fld_offset fld_size access_size fuel dest2
            (progress + ab) (offset + access_size / 8) := by
        simp only [read_field_loop, if_pos hlt]
      have hr_lt : r < access_size := Nat.mod_lt _ haspos
      have hab_le : ab ≤ access_size - r := min_le_right _ _
      have hab_le2 : ab ≤ fld_size - progress := min_le_left _ _
      have hab_pos : 1 ≤ ab := by omega
      have he8 : 8 * (access_size / 8) = access_size := by omega
      have hv2bit : ∀ j, value2.testBit j
          = (decide (j < ab) && bitOf region (fld_offset + progress + j)) := by
        intro j
        rw [hval2d, Nat.testBit_land, Nat.shiftLeft_eq, one_mul,
          Nat.testBit_two_pow_sub_one, Nat.testBit_shiftRight, hvald]
        unfold lai_perform_read
        rw [readBytesLE_testBit region hreg offset (access_size / 8) (r + j), he8]
        by_cases hj : j < ab
        · have h1 : r + j < access_size := by omega
          have h2 : 8 * offset + (r + j) = fld_offset + progress + j := by omega
          rw [h2]
          simp [hj, h1]
        · simp [hj]
      obtain ⟨hwf2, hd2bits⟩ := lai_buffer_put_at_spec dest value2 progress ab hwf
      rw [← hd2] at hwf2 hd2bits
      have halign2 : progress + ab < fld_size →
          8 * (offset + access_size / 8)
              + (fld_offset + (progress + ab)) % access_size
            = fld_offset + (progress + ab)
          ∧ access_size ∣ 8 * (offset + access_size / 8) := by
        intro hlt2
        have habfull : ab = access_size - r := by omega
        obtain ⟨q, hq⟩ := hdvd
        have hdist : access_size * (q + 1) = access_size * q + access_size := by ring
        have hmod0 : (fld_offset + (progress + ab)) % access_size = 0 := by
          have he : fld_offset + (progress + ab) = access_size * (q + 1) := by omega
          rw [he]
          exact Nat.mul_mod_right _ _
        constructor
        · rw [hmod0]; omega
        · exact ⟨q + 1, by omega⟩
      obtain ⟨ihwf, ihbits⟩ := ih (progress + ab) (offset + access_size / 8) dest2
        (by omega) hwf2 halign2
      rw [hunf]
      refine ⟨ihwf, fun b => ?_⟩
      rw [ihbits b, hd2bits b]
      by_cases hin1 : progress ≤ b
      · by_cases hin2 : b < progress + ab
        · have hv := hv2bit (b - progress)
          have hj : b - progress < ab := by omega
          have he : fld_offset + progress + (b - progress) = fld_offset + b := by omega
          rw [he] at hv
          rw [hv]
          have hc1b : b < fld_size := by omega
          have hc2 : ¬ (progress + ab ≤ b) := by omega
          simp [hin1, hin2, hj, hc1b, hc2, Bool.or_assoc]
        · have hc2 : progress + ab ≤ b := by omega
          simp [hin1, hin2, hc2]
      · have hc2 : ¬ (progress + ab ≤ b) := by omega
        simp [hin1, hc2]
    · simp only [read_field_loop, if_neg hlt]
      refine ⟨hwf, fun b => ?_⟩
      by_cases h1 : progress ≤ b
      · by_cases h2 : b < fld_size
        · exfalso; omega
        · simp [h2]
      · simp [h1]

theorem write_field_loop_spec (src : ByteFn) (fld_offset fld_size access_size : Nat)
    (has8 : access_size % 8 = 0) (haspos : 0 < access_size)
    (has64 : access_size ≤ 64) :
    ∀ fuel progress offset region, fld_size - progress ≤ fuel → WfBytes region →
      (progress < fld_size →
        8 * offset + (fld_offset + progress) % access_size = fld_offset + progress
        ∧ access_size ∣ 8 * offset) →
      ∃ region2,
        write_field_loop src fld_offset fld_size access_size FIELD_PRESERVE fuel
            region progress offset = some region2
        ∧ WfBytes region2
        ∧ ∀ b, bitOf region2 b
            = if fld_offset + progress ≤ b ∧ b < fld_offset + fld_size
              then bitOf src (b - fld_offset) else bitOf region b := by
  intro fuel
  induction fuel with
  | zero =>
    intro progress offset region hfuel hwf _
    refine ⟨region, rfl, hwf, fun b => ?_⟩
    rw [if_neg (by omega)]
  | succ fuel ih =>
    intro progress offset region hfuel hwf halign
    by_cases hlt : progress < fld_size
    · obtain ⟨hal, hdvd⟩ := halign hlt
      set r := (fld_offset + progress) % access_size with hrd
      set ab := min (fld_size - progress) (access_size - r) with habd
      set mask := ((1 <<< ab) - 1) <<< r with hmaskd
      set v := lai_perform_read region access_size offset with hvd
      set v2 := v &&& ((2 ^ 64 - 1) ^^^ mask) with hv2d
      set newv := lai_buffer_get_at src progress ab with hnewvd
      set v3 := v2 ||| ((newv <<< r) &&& mask) with hv3d
      set region2 := lai_perform_write region access_size offset v3 with hr2d
      have hr_lt : r < access_size := Nat.mod_lt _ haspos
      have hab_le : ab ≤ access_size - r := min_le_right _ _
      have hab_le2 : ab ≤ fld_size - progress := min_le_left _ _
      have hab_pos : 1 ≤ ab := by omega
      have he8 : 8 * (access_size / 8) = access_size := by omega
      have hunf : write_field_loop src fld_offset fld_size access_size FIELD_PRESERVE
            (fuel + 1) region progress offset
          = write_field_loop src fld_offset fld_size access_size FIELD_PRESERVE fuel
            region2 (progress + ab) (offset + access_size / 8) := by
        simp only [write_field_loop, if_pos hlt, if_true]
      have hvbit : ∀ j, v.testBit j
          = (decide (j < access_size) && bitOf region (8 * offset + j)) := by
        intro j
        rw [hvd]
        unfold lai_perform_read
        rw [readBytesLE_testBit region hwf offset (access_size / 8) j, he8]
      have hmaskbit : ∀ j, mask.testBit j = (decide (r ≤ j) && decide (j - r < ab)) := by
        intro j
        rw [hmaskd, Nat.testBit_shiftLeft, Nat.shiftLeft_eq, one_mul,
          Nat.testBit_two_pow_sub_one]
      have hfirst : ∀ j, j < access_size → v2.testBit j
          = (bitOf region (8 * offset + j) && !(mask.testBit j)) := by
        intro j hj
        have hj64 : j < 64 := by omega
        rw [hv2d, Nat.testBit_land, Nat.testBit_xor, Nat.testBit_two_pow_sub_one, hvbit j]
        simp [hj, hj64]
      have hsecond : ∀ j, ((newv <<< r) &&& mask).testBit j
          = (decide (r ≤ j) && decide (j - r < ab)
             && (decide (j - r < ab) && bitOf src (progress + (j - r)))) := by
        intro j
        rw [Nat.testBit_land, Nat.testBit_shiftLeft, hmaskbit j, hnewvd,
          lai_buffer_get_at_spec src progress ab (j - r)]
        by_cases h1 : r ≤ j <;> by_cases h2 : j - r < ab <;> simp [h1, h2]
      have hv3bit : ∀ j, j < access_size → v3.testBit j
          = (if r ≤ j ∧ j - r < ab then bitOf src (progress + (j - r))
             else bitOf region (8 * offset + j)) := by
        intro j hj
        rw [hv3d, Nat.testBit_lor, hfirst j hj, hsecond j, hmaskbit j]
        by_cases h1 : r ≤ j <;> by_cases h2 : j - r < ab <;>
          simp [h1, h2]
      obtain ⟨hwf2p, hr2bitsRawP⟩ := writeBytesLE_spec region offset v3 hwf (access_size / 8)
      have hwf2 : WfBytes region2 := hwf2p
      have hr2bitsRaw : ∀ b, bitOf region2 b
          = if 8 * offset ≤ b ∧ b < 8 * offset + access_size
            then v3.testBit (b - 8 * offset) else bitOf region b := by
        intro b
        have h := hr2bitsRawP b
        rw [he8] at h
        exact h
      have hr2bits : ∀ b, bitOf region2 b
          = if fld_offset + progress ≤ b ∧ b < fld_offset + progress + ab
            then bitOf src (b - fld_offset) else bitOf region b := by
        intro b
        rw [hr2bitsRaw b]
        by_cases hbu : 8 * offset ≤ b ∧ b < 8 * offset + access_size
        · rw [if_pos hbu]
          have hjlt : b - 8 * offset < access_size := by omega
          rw [hv3bit (b - 8 * offset) hjlt]
          by_cases hbc : fld_offset + progress ≤ b ∧ b < fld_offset + progress + ab
          · rw [if_pos (by omega : r ≤ b - 8 * offset ∧ b - 8 * offset - r < ab),
              if_pos hbc]
            congr 1
            omega
          · rw [if_neg (by omega : ¬ (r ≤ b - 8 * offset ∧ b - 8 * offset - r < ab)),
              if_neg hbc]
            congr 1
            omega
        · rw [if_neg hbu, if_neg (by omega)]
      have halign2 : progress + ab < fld_size →
          8 * (offset + access_size / 8)
              + (fld_offset + (progress + ab)) % access_size
            = fld_offset + (progress + ab)
          ∧ access_size ∣ 8 * (offset + access_size / 8) := by
        intro hlt2
        have habfull : ab = access_size - r := by omega
        obtain ⟨q, hq⟩ := hdvd
        have hdist : access_size * (q + 1) = access_size * q + access_size := by ring
        have hmod0 : (fld_offset + (progress + ab)) % access_size = 0 := by
          have he : fld_offset + (progress + ab) = access_size * (q + 1) := by omega
          rw [he]
          exact Nat.mul_mod_right _ _
        constructor
        · rw [hmod0]; omega
        · exact ⟨q + 1, by omega⟩
      obtain ⟨regionF, hF, hFwf, hFbits⟩ := ih (progress + ab) (offset + access_size / 8)
        region2 (by omega) hwf2 halign2
      refine ⟨regionF, ?_, hFwf, fun b => ?_⟩
      · rw [hunf]; exact hF
      · rw [hFbits b, hr2bits b]
        by_cases h1 : fld_offset + (progress + ab) ≤ b
        · by_cases h2 : b < fld_offset + fld_size
          · rw [if_pos ⟨h1, h2⟩, if_pos (by omega)]
          · rw [if_neg (by omega), if_neg (by omega), if_neg (by omega)]
        · rw [if_neg (by omega)]
          by_cases h3 : fld_offset + progress ≤ b
          · have h2 : b < fld_offset + fld_size := by omega
            rw [if_pos (by omega), if_pos (by omega)]
          · rw [if_neg (by omega), if_neg (by omega)]
    · refine ⟨region, ?_, hwf, fun b => ?_⟩
      · simp only [write_field_loop, if_neg hlt]
      · rw [if_neg (by omega)]

theorem access_width_mem {f n s w : Nat} (h : lai_calculate_access_width f n s = some w) :
    w = 8 ∨ w = 16 ∨ w = 32 ∨ w = 64 := by
  unfold lai_calculate_access_width at h
  by_cases h1 : f &&& 0xF = FIELD_BYTE_ACCESS
  · rw [if_pos h1] at h
    exact Or.inl (Option.some.inj h).symm
  rw [if_neg h1] at h
  by_cases h2 : f &&& 0xF = FIELD_WORD_ACCESS
  · rw [if_pos h2] at h
    exact Or.inr (Or.inl (Option.some.inj h).symm)
  rw [if_neg h2] at h
  by_cases h3 : f &&& 0xF = FIELD_DWORD_ACCESS
  · rw [if_pos h3] at h
    exact Or.inr (Or.inr (Or.inl (Option.some.inj h).symm))
  rw [if_neg h3] at h
  by_cases h4 : f &&& 0xF = FIELD_QWORD_ACCESS
  · rw [if_pos h4] at h
    exact Or.inr (Or.inr (Or.inr (Option.some.inj h).symm))
  rw [if_neg h4] at h
  by_cases h5 : f &&& 0xF = FIELD_ANY_ACCESS
  · rw [if_pos h5] at h
    simp only [Option.some.injEq] at h
    subst h
    obtain ⟨k, hk⟩ : ∃ k, (if n > 1 then 1 <<< (32 - clz32 (n - 1)) else 1) = 2 ^ k := by
      by_cases hn : n > 1
      · exact ⟨32 - clz32 (n - 1), by rw [if_pos hn, Nat.shiftLeft_eq, one_mul]⟩
      · exact ⟨0, by rw [if_neg hn]; norm_num⟩
    rw [hk]
    have hmw : (if s = ACPI_OPREGION_MEMORY then (64 : Nat) else 32) = 64
        ∨ (if s = ACPI_OPREGION_MEMORY then (64 : Nat) else 32) = 32 := by
      by_cases hs : s = ACPI_OPREGION_MEMORY
      · exact Or.inl (if_pos hs)
      · exact Or.inr (if_neg hs)
    rcases hmw with hmw | hmw <;> rw [hmw]
    · by_cases hgt : 2 ^ k > 64
      · rw [if_pos hgt]; norm_num
      · rw [if_neg hgt]
        have hk6 : k ≤ 6 := by
          by_contra hk7
          have : (2 : Nat) ^ 7 ≤ 2 ^ k := Nat.pow_le_pow_right (by norm_num) (by omega)
          omega
        by_cases hlt8 : 2 ^ k < 8
        · rw [if_pos hlt8]; left; rfl
        · rw [if_neg hlt8]
          interval_cases k <;> norm_num at hlt8 ⊢
    · by_cases hgt : 2 ^ k > 32
      · rw [if_pos hgt]; norm_num
      · rw [if_neg hgt]
        have hk5 : k ≤ 5 := by
          by_contra hk6
          have : (2 : Nat) ^ 6 ≤ 2 ^ k := Nat.pow_le_pow_right (by norm_num) (by omega)
          omega
        by_cases hlt8 : 2 ^ k < 8
        · rw [if_pos hlt8]; left; rfl
        · rw [if_neg hlt8]
          interval_cases k <;> norm_num at hlt8 ⊢
  · rw [if_neg h5] at h
    exact absurd h (by simp)

theorem alignDownBits_eq {o k : Nat} (hk : k ≤ 63) (ho : o < 2 ^ 64) :
    alignDownBits o (2 ^ k) = o - o % 2 ^ k := by
  have hstep : o - o % 2 ^ k = (o >>> k) <<< k := by
    rw [Nat.shiftRight_eq_div_pow, Nat.shiftLeft_eq]
    have hdm := Nat.div_add_mod o (2 ^ k)
    have hcomm : o / 2 ^ k * 2 ^ k = 2 ^ k * (o / 2 ^ k) := Nat.mul_comm _ _
    omega
  rw [hstep]
  unfold alignDownBits
  apply Nat.eq_of_testBit_eq
  intro i
  rw [Nat.testBit_land, Nat.testBit_xor, Nat.testBit_two_pow_sub_one,
    Nat.testBit_two_pow_sub_one, Nat.testBit_shiftLeft, Nat.testBit_shiftRight]
  by_cases hik : i < k
  · have h64 : i < 64 := by omega
    have hge : ¬ (i ≥ k) := by omega
    simp [hik, h64, hge]
  · by_cases h64 : i < 64
    · have hge : i ≥ k := by omega
      have he : k + (i - k) = i := by omega
      simp [hik, h64, hge, he]
    · have hbit : o.testBit i = false := by
        apply Nat.testBit_lt_two_pow
        calc o < 2 ^ 64 := ho
          _ ≤ 2 ^ i := Nat.pow_le_pow_right (by norm_num) (by omega)
      have hge : i ≥ k := by omega
      have he : k + (i - k) = i := by omega
      simp [hik, h64, hge, he, hbit]

/-- C4: through a Field with Preserve update policy, over an operation
region modelled as a byte array, and for every access-width selection
(Byte/Word/Dword/Qword/Any flags), writing N bits and reading them back
reproduces the written bits, and every region bit outside the field's
[o, o + N) window keeps its prior value (read-modify-write on each touched
access unit). -/
theorem field_write_read_roundtrip_preserve
    (region src : ByteFn) (o N flags space w : Nat)
    (hreg : WfBytes region) (ho : o < 2 ^ 64)
    (hpres : (flags >>> 5) &&& 0xF = FIELD_PRESERVE)
    (hw : lai_calculate_access_width flags N space = some w) :
    ∃ region2,
      lai_write_field_internal src region o N flags space = some region2
      ∧ WfBytes region2
      ∧ (∀ b, bitOf region2 b
          = if o ≤ b ∧ b < o + N then bitOf src (b - o) else bitOf region b)
      ∧ ∃ dest2,
          lai_read_field_internal (fun _ => 0) region2 o N flags space = some dest2
          ∧ (∀ i, i < N → bitOf dest2 i = bitOf src i)
          ∧ ∀ i, N ≤ i → bitOf dest2 i = false := by
  have hwmem := access_width_mem hw
  have has8 : w % 8 = 0 := by rcases hwmem with h | h | h | h <;> subst h <;> norm_num
  have haspos : 0 < w := by rcases hwmem with h | h | h | h <;> subst h <;> norm_num
  have has64 : w ≤ 64 := by rcases hwmem with h | h | h | h <;> subst h <;> norm_num
  obtain ⟨k, hk63, hk⟩ : ∃ k, k ≤ 63 ∧ w = 2 ^ k := by
    rcases hwmem with h | h | h | h <;> subst h
    · exact ⟨3, by norm_num, by norm_num⟩
    · exact ⟨4, by norm_num, by norm_num⟩
    · exact ⟨5, by norm_num, by norm_num⟩
    · exact ⟨6, by norm_num, by norm_num⟩
  have halignval : alignDownBits o w = w * (o / w) := by
    rw [hk, alignDownBits_eq hk63 ho]
    have hdm := Nat.div_add_mod o (2 ^ k)
    omega
  have hdvd8A : 8 ∣ alignDownBits o w := by
    refine ⟨(w / 8) * (o / w), ?_⟩
    rw [halignval]
    have hw8 : w = 8 * (w / 8) := by omega
    calc w * (o / w) = 8 * (w / 8) * (o / w) := by rw [← hw8]
      _ = 8 * (w / 8 * (o / w)) := by ring
  have hA8 : 8 * (alignDownBits o w / 8) = alignDownBits o w :=
    Nat.mul_div_cancel' hdvd8A
  have halign0 : 0 < N →
      8 * (alignDownBits o w / 8) + o % w = o
      ∧ w ∣ 8 * (alignDownBits o w / 8) := by
    intro _
    constructor
    · rw [hA8, halignval]
      have hdm := Nat.div_add_mod o w
      omega
    · rw [hA8, halignval]
      exact ⟨o / w, rfl⟩
  obtain ⟨region2, hwriteF, hwf2, hbits2⟩ :=
    write_field_loop_spec src o N w has8 haspos has64 N 0 (alignDownBits o w / 8)
      region (by omega) hreg (fun hpos => by simpa using halign0 hpos)
  have hwrite : lai_write_field_internal src region o N flags space = some region2 := by
    unfold lai_write_field_internal
    rw [hw, hpres]
    exact hwriteF
  have hzwf : WfBytes (fun _ => 0) := fun _ => by norm_num
  obtain ⟨hdwf, hdbits⟩ :=
    read_field_loop_spec region2 o N w hwf2 has8 haspos N 0 (alignDownBits o w / 8)
      (fun _ => 0) (by omega) hzwf (fun hpos => by simpa using halign0 hpos)
  refine ⟨region2, hwrite, hwf2, fun b => by simpa using hbits2 b, ?_⟩
  refine ⟨read_field_loop region2 o N w N (fun _ => 0) 0 (alignDownBits o w / 8), ?_, ?_, ?_⟩
  · unfold lai_read_field_internal
    rw [hw]
    rfl
  · intro i hi
    have hd := hdbits i
    have hz : bitOf (fun _ => 0) i = false := by
      unfold bitOf
      exact Nat.zero_testBit _
    rw [hd, hz]
    have hb := hbits2 (o + i)
    rw [if_pos (by omega)] at hb
    have he : o + i - o = i := by omega
    rw [he] at hb
    simp [hi, hb]
  · intro i hi
    have hd := hdbits i
    have hz : bitOf (fun _ => 0) i = false := by
      unfold bitOf
      exact Nat.zero_testBit _
    rw [hd, hz]
    simp [show ¬ (i < N) by omega]

/-- Concrete source buffer for the C4 witness. -/
def srcW : ByteFn := fun i => (181 + 7 * i) % 256

/-- Concrete region contents for the C4 witness. -/
def regW : ByteFn := fun i => (17 + 3 * i) % 256

/-- Witness for C4: a 9-bit field at bit offset 3 (AnyAcc flags 0, hence a
16-bit access width, SystemMemory space, Preserve policy) round-trips and
preserves the untouched region bits. -/
theorem field_write_read_roundtrip_preserve_witness :
    lai_calculate_access_width 0 9 0 = some 16
    ∧ ((0 : Nat) >>> 5) &&& 0xF = FIELD_PRESERVE
    ∧ ∃ region2,
        lai_write_field_internal srcW regW 3 9 0 0 = some region2
        ∧ WfBytes region2
        ∧ (∀ b, bitOf region2 b
            = if 3 ≤ b ∧ b < 3 + 9 then bitOf srcW (b - 3) else bitOf regW b)
        ∧ ∃ dest2,
            lai_read_field_internal (fun _ => 0) region2 3 9 0 0 = some dest2
            ∧ (∀ i, i < 9 → bitOf dest2 i = bitOf srcW i)
            ∧ ∀ i, 9 ≤ i → bitOf dest2 i = false :=
  ⟨by decide, by decide,
    field_write_read_roundtrip_preserve regW srcW 3 9 0 0 16
      (fun i => Nat.mod_lt _ (by norm_num)) (by norm_num) (by decide) (by decide)⟩

/-! ## Execution engine slice (exec.c: lai_exec_process / lai_exec_parse)

A faithful embedding of the parts of the stack-machine driver that the
control-flow and method-lifetime claims exercise: the Method, Loop,
Condition, Return, Op, Node and Invoke stack items of lai_exec_process, and
the lai_exec_parse cases for the opcodes appearing in the verified
programs (constants, locals, Store/Add/Decrement, Name, If/Else, While,
Break, Continue, Return, Noop and method invocation by name).  Opcodes
outside this slice map to `panicked`, standing for the source behaviour on
opcodes the verified programs never reach.  The work/context/block stacks
are lists with the head as the stack back; the operand stack is a list
with the head as the BOTTOM, since opstack_frame values are absolute
indices. -/

/-- Three-valued outcome: a successful value, a recoverable
lai_api_error_t, or lai_panic. -/
inductive XRes (α : Type) where
  | ok (a : α)
  | fail (e : LaiError)
  | panicked
  deriving DecidableEq

/-- Subset of lai_variable_t used by the execution claims: the
zero-initialized variable (LAI_TYPE_NONE) and LAI_INTEGER. -/
inductive XVar where
  | uninit
  | integer (v : Nat)
  deriving DecidableEq

/-- Operand-stack entries (struct lai_operand): a concrete object, a
local/arg pseudo-reference, an unresolved name (recorded by the pc of its
first byte), a resolved namespace handle, or a null target. -/
inductive Operand where
  | object (v : XVar)
  | localName (i : Nat)
  | argName (i : Nat)
  | unresolvedName (amlPc : Nat)
  | resolvedName (node : Nat)
  | nullName
  deriving DecidableEq

/-- Namespace node type tags from include/lai/internal-ns.h. -/
def LAI_NAMESPACE_ROOT : Nat := 1

/-- LAI_NAMESPACE_NAME from include/lai/internal-ns.h. -/
def LAI_NAMESPACE_NAME : Nat := 2

/-- LAI_NAMESPACE_METHOD from include/lai/internal-ns.h. -/
def LAI_NAMESPACE_METHOD : Nat := 5

/-- LAI_NAMESPACE_BUFFER_FIELD from include/lai/internal-ns.h. -/
def LAI_NAMESPACE_BUFFER_FIELD : Nat := 10

/-- Namespace node (lai_nsnode_t, the fields the claims need): identity,
parent link, 4-byte name segment, type tag, Name() payload, backing buffer
id for buffer fields, and body/flags for methods. -/
structure NsNode where
  nodeId : Nat
  parentId : Option Nat
  nameSeg : List Nat
  nodeType : Nat
  obj : XVar
  bfBuffer : Option Nat
  methodCode : List Nat
  methodFlags : Nat
  deriving DecidableEq

/-- The namespace as a node list (§4.1: a tree with name-keyed children;
edges are the parentId links). -/
abbrev Namespace : Type := List NsNode

/-- Node lookup by id. -/
def nsFind (ns : Namespace) (nid : Nat) : Option NsNode :=
  List.find? (fun n => n.nodeId = nid) ns

/-- Direct child lookup: the node with the given name segment directly
under the given scope. -/
def resolveInScope (ns : Namespace) (scope : Option Nat) (seg : List Nat) : Option NsNode :=
  List.find? (fun n => n.parentId = scope ∧ n.nameSeg = seg) ns

/-- Modelled from the spec: lai_install_nsnode (core/ns.c is absent from
src); per §4.1 install fails when the name already exists in that scope,
else links the node into the tree. -/
def lai_install_nsnode (ns : Namespace) (node : NsNode) : Except LaiError Namespace :=
  if List.any ns (fun m => m.parentId = node.parentId ∧ m.nameSeg = node.nameSeg) then
    .error .noSuchNode
  else .ok (node :: ns)

/-- Modelled from the spec: lai_uninstall_nsnode (core/ns.c is absent from
src); per §4.1 uninstall unlinks the node from its parent. -/
def lai_uninstall_nsnode (ns : Namespace) (nid : Nat) : Namespace :=
  List.filter (fun n => n.nodeId ≠ nid) ns

/-- Modelled from the spec: the search rule of lai_do_resolve (core/ns.c is
absent from src); per §4.1 a single-segment relative name searches the
local scope, then walks upward through the enclosing scopes.  `fuel` bounds
the upward walk. -/
def lai_do_resolve (ns : Namespace) : Nat → Nat → List Nat → Option Nat
  | 0, _, _ => none
  | fuel + 1, scope, seg =>
    match resolveInScope ns (some scope) seg with
    | some n => some n.nodeId
    | none =>
      match nsFind ns scope with
      | some snode =>
        match snode.parentId with
        | some p => lai_do_resolve ns fuel p seg
        | none => none
      | none => none

/-- Reference-count heap for buffer payloads: (buffer id, refcount) pairs. -/
abbrev RcHeap : Type := List (Nat × Nat)

/-- Current reference count of a buffer (0 when freed / absent). -/
def rcOf (heap : RcHeap) (bid : Nat) : Nat :=
  match List.find? (fun p => p.1 = bid) heap with
  | some p => p.2
  | none => 0

/-- lai_rc_unref plus the conditional free of the buffer head
(exec.c per-method cleanup): decrement the count; when it reaches zero the
buffer is freed (removed from the heap).  Returns the new heap and whether
the buffer was freed. -/
def lai_rc_unref (heap : RcHeap) (bid : Nat) : RcHeap × Bool :=
  match List.find? (fun p => p.1 = bid) heap with
  | none => (heap, false)
  | some p =>
    if p.2 ≤ 1 then (List.filter (fun q => q.1 ≠ bid) heap, true)
    else (List.map (fun q => if q.1 = bid then (q.1, p.2 - 1) else q) heap, false)

/-- Per-call frame (struct lai_invocation): 7 arguments, 8 locals, and the
list of namespace nodes created during the call. -/
structure Invocation where
  args : List XVar
  locals : List XVar
  perMethodList : List Nat
  deriving DecidableEq

/-- Context-stack entry (struct lai_ctxitem): code segment, scope handle,
and the active invocation (methods only). -/
structure CtxItem where
  code : List Nat
  ctxHandle : Nat
  invocation : Option Invocation
  deriving DecidableEq

/-- Block-stack entry (struct lai_blkitem): pc and limit of the current
code block. -/
structure BlkItem where
  pc : Nat
  limit : Nat
  deriving DecidableEq

/-- Work-stack items (lai_stackitem_t), with their kind-specific state. -/
inductive StackItem where
  | methodItem (wantResult : Bool)
  | loopItem (loopState : Nat) (pred : Nat) (frame : Nat)
  | condItem (condState : Nat) (hasElse : Bool) (elsePc elseLimit : Nat) (frame : Nat)
  | returnItem (frame : Nat)
  | opItem (opcode : Nat) (argModes : List Nat) (wantResult : Bool) (frame : Nat)
  | nodeItem (opcode : Nat) (argModes : List Nat) (frame : Nat)
  | invokeItem (argc : Nat) (wantResult : Bool) (frame : Nat)
  deriving DecidableEq

/-- Interpreter state (lai_state_t): the four stacks, plus the shared
namespace, the buffer refcount heap, and a fresh-node counter. -/
structure LaiState where
  ctxstack : List CtxItem
  blkstack : List BlkItem
  stack : List StackItem
  opstack : List Operand
  ns : Namespace
  heap : RcHeap
  nextNodeId : Nat
  deriving DecidableEq

/-- Modelled from the spec: LAI_LOOP_ITERATION (include/lai/internal-exec.h
is absent from src); any nonzero value distinguishing the iteration state
from the predicate-check state 0. -/
def LAI_LOOP_ITERATION : Nat := 1

/-- Modelled from the spec: LAI_COND_BRANCH (include/lai/internal-exec.h is
absent from src). -/
def LAI_COND_BRANCH : Nat := 1

/-- Parse mode LAI_DATA_MODE (exec_impl.h). -/
def LAI_DATA_MODE : Nat := 1

/-- Parse mode LAI_OBJECT_MODE (exec_impl.h). -/
def LAI_OBJECT_MODE : Nat := 2

/-- Parse mode LAI_EXEC_MODE (exec_impl.h). -/
def LAI_EXEC_MODE : Nat := 3

/-- Parse mode LAI_UNRESOLVED_MODE (exec_impl.h). -/
def LAI_UNRESOLVED_MODE : Nat := 4

/-- Parse mode LAI_REFERENCE_MODE (exec_impl.h). -/
def LAI_REFERENCE_MODE : Nat := 5

/-- Parse mode LAI_OPTIONAL_REFERENCE_MODE (exec_impl.h). -/
def LAI_OPTIONAL_REFERENCE_MODE : Nat := 6

/-- Mode flag LAI_MF_RESULT (exec_impl.h). -/
def LAI_MF_RESULT : Nat := 1

/-- Mode flag LAI_MF_RESOLVE (exec_impl.h). -/
def LAI_MF_RESOLVE : Nat := 2

/-- Mode flag LAI_MF_NULLABLE (exec_impl.h). -/
def LAI_MF_NULLABLE : Nat := 4

/-- Mode flag LAI_MF_INVOKE (exec_impl.h). -/
def LAI_MF_INVOKE : Nat := 8

/-- The lai_mode_flags table (exec_impl.h). -/
def lai_mode_flags (mode : Nat) : Nat :=
  if mode = LAI_EXEC_MODE then LAI_MF_RESOLVE ||| LAI_MF_INVOKE
  else if mode = LAI_UNRESOLVED_MODE then LAI_MF_RESULT
  else if mode = LAI_DATA_MODE then LAI_MF_RESULT
  else if mode = LAI_OBJECT_MODE then LAI_MF_RESULT ||| LAI_MF_RESOLVE ||| LAI_MF_INVOKE
  else if mode = LAI_REFERENCE_MODE then LAI_MF_RESULT ||| LAI_MF_RESOLVE
  else if mode = LAI_OPTIONAL_REFERENCE_MODE then
    LAI_MF_RESULT ||| LAI_MF_RESOLVE ||| LAI_MF_NULLABLE
  else 0

/-- Modelled from the spec: AML opcode bytes (aml_opcodes.h is absent from
src); the values are fixed by the AML wire format of §6.  ZeroOp. -/
def ZERO_OP : Nat := 0x00

/-- Modelled from the spec: OneOp byte. -/
def ONE_OP : Nat := 0x01

/-- Modelled from the spec: NameOp byte. -/
def NAME_OP : Nat := 0x08

/-- Modelled from the spec: BytePrefix of one-byte integer literals. -/
def BYTE_PREFIX_OP : Nat := 0x0A

/-- Modelled from the spec: Local0Op byte (Local0..Local7 are 0x60..0x67). -/
def LOCAL0_OP : Nat := 0x60

/-- Modelled from the spec: StoreOp byte. -/
def STORE_OP : Nat := 0x70

/-- Modelled from the spec: AddOp byte. -/
def ADD_OP : Nat := 0x72

/-- Modelled from the spec: DecrementOp byte. -/
def DECREMENT_OP : Nat := 0x76

/-- Modelled from the spec: ContinueOp byte. -/
def CONTINUE_OP : Nat := 0x9F

/-- Modelled from the spec: IfOp byte. -/
def IF_OP : Nat := 0xA0

/-- Modelled from the spec: ElseOp byte. -/
def ELSE_OP : Nat := 0xA1

/-- Modelled from the spec: WhileOp byte. -/
def WHILE_OP : Nat := 0xA2

/-- Modelled from the spec: NoopOp byte. -/
def NOOP_OP : Nat := 0xA3

/-- Modelled from the spec: ReturnOp byte. -/
def RETURN_OP : Nat := 0xA4

/-- Modelled from the spec: BreakOp byte. -/
def BREAK_OP : Nat := 0xA5

/-- lai_parse_varint (exec.c): 1-4 byte package-length integer; the top two
bits of the first byte select the number of extra bytes.  Returns the value
and the new pc, or `none` on a bounds failure. -/
def lai_parse_varint (code : List Nat) (pc limit : Nat) : Option (Nat × Nat) :=
  if pc + 1 > limit then none
  else
    let b0 := code.getD pc 0
    let sz := (b0 >>> 6) &&& 3
    if sz = 0 then some (b0 &&& 0x3F, pc + 1)
    else if sz = 1 then
      if pc + 2 > limit then none
      else some ((b0 &&& 0x0F) ||| (code.getD (pc + 1) 0 <<< 4), pc + 2)
    else if sz = 2 then
      if pc + 3 > limit then none
      else some ((b0 &&& 0x0F) ||| (code.getD (pc + 1) 0 <<< 4)
        ||| (code.getD (pc + 2) 0 <<< 12), pc + 3)
    else
      if pc + 4 > limit then none
      else some ((b0 &&& 0x0F) ||| (code.getD (pc + 1) 0 <<< 4)
        ||| (code.getD (pc + 2) 0 <<< 12) ||| (code.getD (pc + 3) 0 <<< 20), pc + 4)

/-- Modelled from the spec: lai_is_name (core/ns.c is absent from src); the
characters that may start an AML name per the §6 wire format: A-Z, the
underscore, and the root/parent/dual/multi prefixes. -/
def lai_is_name (c : Nat) : Bool :=
  decide (0x41 ≤ c ∧ c ≤ 0x5A) || decide (c = 0x5F) || decide (c = 0x5C)
  || decide (c = 0x5E) || decide (c = 0x2E) || decide (c = 0x2F)

/-- The 4 name bytes at `pc`. -/
def segAt (code : List Nat) (pc : Nat) : List Nat :=
  [code.getD pc 0, code.getD (pc + 1) 0, code.getD (pc + 2) 0, code.getD (pc + 3) 0]

/-- Modelled from the spec: lai_amlname_parse (core/ns.c is absent from
src), restricted to the single 4-character relative name segment of the §6
wire format — the only name form the verified programs contain; prefixed,
dual and multi segment forms are outside the slice (`none`). -/
def lai_amlname_parse (code : List Nat) (pc : Nat) : Option (List Nat × Nat) :=
  let b := code.getD pc 0
  if decide (0x41 ≤ b ∧ b ≤ 0x5A) || decide (b = 0x5F) then some (segAt code pc, pc + 4)
  else none

/-- Invocation of the context-stack back (what the C reads from
`ctxitem->invocation`). -/
def currentInvocation (s : LaiState) : Option Invocation :=
  match s.ctxstack with
  | [] => none
  | c :: _ => c.invocation

/-- Modelled from the spec: lai_exec_get_objectref (core/exec-operand.c is
absent from src); per §3/§4.3 an object operand yields its object and a
local/arg pseudo-reference yields the invocation slot's value; the
remaining operand tags are outside the slice. -/
def lai_exec_get_objectref (s : LaiState) (op : Operand) : XRes XVar :=
  match op with
  | .object v => .ok v
  | .localName i =>
    match currentInvocation s with
    | some inv => .ok (inv.locals.getD i .uninit)
    | none => .panicked
  | .argName i =>
    match currentInvocation s with
    | some inv => .ok (inv.args.getD i .uninit)
    | none => .panicked
  | _ => .panicked

/-- Modelled from the spec: lai_exec_get_integer (core/exec-operand.c is
absent from src); like lai_exec_get_objectref but failing with
TypeMismatch on a non-integer object. -/
def lai_exec_get_integer (s : LaiState) (op : Operand) : XRes Nat :=
  match lai_exec_get_objectref s op with
  | .ok (.integer v) => .ok v
  | .ok _ => .fail .typeMismatch
  | .fail e => .fail e
  | .panicked => .panicked

/-- Modelled from the spec: lai_operand_load (core/exec-operand.c is absent
from src); identical to lai_exec_get_objectref on the operand tags of the
slice. -/
def lai_operand_load (s : LaiState) (op : Operand) : XRes XVar :=
  lai_exec_get_objectref s op

/-- Modelled from the spec: lai_operand_mutate (core/exec-operand.c is
absent from src); per §3/§4.3 storing to a local/arg pseudo-reference
assigns the invocation slot, storing to a null target is a no-op. -/
def lai_operand_mutate (s : LaiState) (op : Operand) (v : XVar) : XRes LaiState :=
  match op with
  | .localName i =>
    match s.ctxstack with
    | c :: rest =>
      match c.invocation with
      | some inv =>
        .ok { s with ctxstack :=
          { c with invocation := some { inv with locals := inv.locals.set i v } } :: rest }
      | none => .panicked
    | [] => .panicked
  | .argName i =>
    match s.ctxstack with
    | c :: rest =>
      match c.invocation with
      | some inv =>
        .ok { s with ctxstack :=
          { c with invocation := some { inv with args := inv.args.set i v } } :: rest }
      | none => .panicked
    | [] => .panicked
  | .nullName => .ok s
  | _ => .panicked

/-- One step of the per-method cleanup loop (exec.c, both the
LAI_METHOD_STACKITEM and LAI_RETURN_STACKITEM copies): release the backing
buffer of a buffer-field node, then uninstall the node. -/
def cleanupOne (ns : Namespace) (heap : RcHeap) (nid : Nat) : Namespace × RcHeap :=
  let heap2 :=
    match nsFind ns nid with
    | some node =>
      if node.nodeType = LAI_NAMESPACE_BUFFER_FIELD then
        match node.bfBuffer with
        | some bid => (lai_rc_unref heap bid).1
        | none => heap
      else heap
    | none => heap
  (lai_uninstall_nsnode ns nid, heap2)

/-- The per-method cleanup loop: uninstall every node on the invocation's
creation list (releasing buffer-field backing buffers). -/
def cleanupPerMethod : List Nat → Namespace → RcHeap → Namespace × RcHeap
  | [], ns, heap => (ns, heap)
  | nid :: rest, ns, heap =>
    let p := cleanupOne ns heap nid
    cleanupPerMethod rest p.1 p.2

/-- lai_exec_push_opstack: append an operand at the stack back. -/
def pushOp (s : LaiState) (o : Operand) : LaiState :=
  { s with opstack := s.opstack ++ [o] }

/-- lai_exec_commit_pc (exec.c): advance the pc of the current block. -/
def lai_exec_commit_pc (s : LaiState) (pc : Nat) : LaiState :=
  match s.blkstack with
  | [] => s
  | b :: rest => { s with blkstack := { b with pc := pc } :: rest }

/-- Modelled from the spec: METHOD_ARGC_MASK (its defining header is absent
from src); the low three bits of method_flags encode the argument count per
§4.2. -/
def METHOD_ARGC_MASK : Nat := 7

/-- The scan loop of the BREAK_OP / CONTINUE_OP cases of lai_exec_parse:
depth of the nearest LAI_LOOP_STACKITEM, counting the skipped condition
items; `none` when the scan would panic (no loop, or an item of another
kind in between). -/
def findLoopDepth : List StackItem → Option Nat
  | [] => none
  | .loopItem _ _ _ :: _ => some 0
  | .condItem _ _ _ _ _ :: rest => (findLoopDepth rest).map (fun m => m + 1)
  | _ => none

/-- The scan loop of the LAI_RETURN_STACKITEM case of lai_exec_process:
depth of the nearest LAI_METHOD_STACKITEM (skipping loop/condition items
only) together with its want-result flag; `none` when the scan would
panic. -/
def findMethodDepth : List StackItem → Option (Nat × Bool)
  | [] => none
  | .methodItem w :: _ => some (0, w)
  | .loopItem _ _ _ :: rest => (findMethodDepth rest).map (fun p => (p.1 + 1, p.2))
  | .condItem _ _ _ _ _ :: rest => (findMethodDepth rest).map (fun p => (p.1 + 1, p.2))
  | _ => none

/-- uint64_t decrement (the `result.integer--` of DECREMENT_OP). -/
def u64dec (v : Nat) : Nat := if v = 0 then 2 ^ 64 - 1 else v - 1

/-- lai_exec_get_objectref with its error code discarded (the callers in
exec.c that pass a zero-initialized variable and ignore the return value:
the variable keeps its zero state on failure). -/
def getObjectrefLenient (s : LaiState) (op : Operand) : XRes XVar :=
  match lai_exec_get_objectref s op with
  | .ok v => .ok v
  | .fail _ => .ok .uninit
  | .panicked => .panicked

/-- lai_exec_reduce_op (exec.c), restricted to the STORE_OP / ADD_OP /
DECREMENT_OP cases that the verified programs reach; every other opcode
falls through to the default warn-and-return-LAI_ERROR_UNSUPPORTED branch.
Returns the updated state (operand targets are mutated) and the reduction
result. -/
def lai_exec_reduce_op (opcode : Nat) (s : LaiState) (operands : List Operand) :
    XRes (LaiState × XVar) :=
  if opcode = STORE_OP then
    match getObjectrefLenient s (operands.getD 0 .nullName) with
    | .ok objectref =>
      match lai_operand_mutate s (operands.getD 1 .nullName) objectref with
      | .ok s2 => .ok (s2, objectref)
      | .fail e => .fail e
      | .panicked => .panicked
    | .fail e => .fail e
    | .panicked => .panicked
  else if opcode = ADD_OP then
    match lai_exec_get_integer s (operands.getD 0 .nullName) with
    | .ok lhs =>
      match lai_exec_get_integer s (operands.getD 1 .nullName) with
      | .ok rhs =>
        let result := XVar.integer ((lhs + rhs) % 2 ^ 64)
        match lai_operand_mutate s (operands.getD 2 .nullName) result with
        | .ok s2 => .ok (s2, result)
        | .fail e => .fail e
        | .panicked => .panicked
      | .fail e => .fail e
      | .panicked => .panicked
    | .fail e => .fail e
    | .panicked => .panicked
  else if opcode = DECREMENT_OP then
    match lai_operand_load s (operands.getD 0 .nullName) with
    | .ok (.integer v) =>
      let result := XVar.integer (u64dec v)
      match lai_operand_mutate s (operands.getD 0 .nullName) result with
      | .ok s2 => .ok (s2, result)
      | .fail e => .fail e
      | .panicked => .panicked
    | _ => .panicked
  else .fail .unsupported

/-- lai_exec_reduce_node (exec.c), restricted to the NAME_OP case: read the
initializer object, re-parse the name recorded by the unresolved-name
operand, create a LAI_NAMESPACE_NAME node under the context handle, install
it, and link it on the invocation's per-method list. -/
def lai_exec_reduce_node (opcode : Nat) (s : LaiState) (operands : List Operand) :
    XRes LaiState :=
  if opcode = NAME_OP then
    match s.ctxstack with
    | [] => .panicked
    | c :: crest =>
      match getObjectrefLenient s (operands.getD 1 .nullName) with
      | .ok object =>
        match operands.getD 0 .nullName with
        | .unresolvedName amlPc =>
          match lai_amlname_parse c.code amlPc with
          | some (seg, _) =>
            let node : NsNode :=
              { nodeId := s.nextNodeId, parentId := some c.ctxHandle, nameSeg := seg,
                nodeType := LAI_NAMESPACE_NAME, obj := object, bfBuffer := none,
                methodCode := [], methodFlags := 0 }
            match lai_install_nsnode s.ns node with
            | .ok ns2 =>
              let c2 :=
                match c.invocation with
                | some inv =>
                  let inv2 := { inv with perMethodList := inv.perMethodList ++ [node.nodeId] }
                  { c with invocation := some inv2 }
                | none => c
              .ok { s with ns := ns2, ctxstack := c2 :: crest,
                           nextNodeId := s.nextNodeId + 1 }
            | .error e => .fail e
          | none => .panicked
        | _ => .panicked
      | .fail e => .fail e
      | .panicked => .panicked
  else .panicked

/-- The argument-collection loop of the LAI_INVOKE_STACKITEM case:
lai_exec_get_objectref of each argument operand (errors leave the
zero-initialized argument untouched), starting at absolute opstack index
`base`. -/
def collectArgs (s : LaiState) (base : Nat) : Nat → XRes (List XVar)
  | 0 => .ok []
  | n + 1 =>
    match getObjectrefLenient s (s.opstack.getD base .nullName) with
    | .ok v =>
      match collectArgs s (base + 1) n with
      | .ok vs => .ok (v :: vs)
      | .fail e => .fail e
      | .panicked => .panicked
    | .fail e => .fail e
    | .panicked => .panicked

/-- lai_exec_parse (exec.c): decode one object at the current block's pc in
the given parse mode.  Covered: relative names (data nodes, method
invocations, unresolved-name operands), ZeroOp, OneOp, BytePrefix, NoopOp,
Local0-7, StoreOp, AddOp, DecrementOp, NameOp, ReturnOp, WhileOp, IfOp
(with trailing Else), BreakOp, ContinueOp.  Anything else the verified
programs never contain and maps to `panicked`. -/
def lai_exec_parse (parse_mode : Nat) (s : LaiState) : XRes LaiState :=
  match s.ctxstack, s.blkstack with
  | c :: _, blk :: _ =>
    let code := c.code
    let pc := blk.pc
    let limit := blk.limit
    let opcodePc := pc
    if pc < limit then
      let wantResult : Bool := decide ((lai_mode_flags parse_mode) &&& LAI_MF_RESULT ≠ 0)
      let b0 := code.getD pc 0
      if lai_is_name b0 then
        match lai_amlname_parse code pc with
        | none => .panicked
        | some (seg, pc2) =>
          let s2 := lai_exec_commit_pc s pc2
          if parse_mode = LAI_DATA_MODE then
            .panicked
          else if (lai_mode_flags parse_mode) &&& LAI_MF_RESOLVE = 0 then
            .ok (if wantResult then pushOp s2 (.unresolvedName opcodePc) else s2)
          else
            match lai_do_resolve s.ns (s.ns.length + 1) c.ctxHandle seg with
            | none =>
              if (lai_mode_flags parse_mode) &&& LAI_MF_NULLABLE ≠ 0 then
                .panicked
              else
                .fail .unexpectedResult
            | some nid =>
              match nsFind s.ns nid with
              | none => .panicked
              | some node =>
                if node.nodeType = LAI_NAMESPACE_METHOD
                    ∧ (lai_mode_flags parse_mode) &&& LAI_MF_INVOKE ≠ 0 then
                  let argc := node.methodFlags &&& METHOD_ARGC_MASK
                  let itm := StackItem.invokeItem argc wantResult s2.opstack.length
                  let op2 := s2.opstack ++ [Operand.resolvedName nid]
                  .ok { s2 with stack := itm :: s2.stack, opstack := op2 }
                else if (lai_mode_flags parse_mode) &&& LAI_MF_INVOKE ≠ 0 then
                  if node.nodeType = LAI_NAMESPACE_NAME then
                    .ok (if wantResult then pushOp s2 (.object node.obj) else s2)
                  else .panicked
                else
                  .ok (if wantResult then pushOp s2 (.resolvedName nid) else s2)
      else if b0 = 0x5B then .panicked
      else
        let opcode := b0
        let pc1 := pc + 1
        if opcode = NOOP_OP then .ok (lai_exec_commit_pc s pc1)
        else if opcode = ZERO_OP then
          let s2 := lai_exec_commit_pc s pc1
          if parse_mode = LAI_DATA_MODE ∨ parse_mode = LAI_OBJECT_MODE then
            .ok (pushOp s2 (.object (.integer 0)))
          else if parse_mode = LAI_REFERENCE_MODE
              ∨ parse_mode = LAI_OPTIONAL_REFERENCE_MODE then
            .ok (pushOp s2 .nullName)
          else if parse_mode = LAI_EXEC_MODE then .ok s2
          else .panicked
        else if opcode = ONE_OP then
          let s2 := lai_exec_commit_pc s pc1
          if parse_mode = LAI_DATA_MODE ∨ parse_mode = LAI_OBJECT_MODE then
            .ok (pushOp s2 (.object (.integer 1)))
          else if parse_mode = LAI_EXEC_MODE then .ok s2
          else .panicked
        else if opcode = BYTE_PREFIX_OP then
          if pc1 + 1 > limit then .fail .executionFailure
          else
            let v := code.getD pc1 0
            let s2 := lai_exec_commit_pc s (pc1 + 1)
            if parse_mode = LAI_DATA_MODE ∨ parse_mode = LAI_OBJECT_MODE then
              .ok (pushOp s2 (.object (.integer v)))
            else if parse_mode = LAI_EXEC_MODE then .ok s2
            else .panicked
        else if LOCAL0_OP ≤ opcode ∧ opcode ≤ LOCAL0_OP + 7 then
          let idx := opcode - LOCAL0_OP
          let s2 := lai_exec_commit_pc s pc1
          if parse_mode = LAI_REFERENCE_MODE
              ∨ parse_mode = LAI_OPTIONAL_REFERENCE_MODE then
            .ok (pushOp s2 (.localName idx))
          else if parse_mode = LAI_OBJECT_MODE then
            match c.invocation with
            | some inv => .ok (pushOp s2 (.object (inv.locals.getD idx .uninit)))
            | none => .panicked
          else .panicked
        else if opcode = STORE_OP then
          let s2 := lai_exec_commit_pc s pc1
          let itm := StackItem.opItem STORE_OP [LAI_OBJECT_MODE, LAI_REFERENCE_MODE, 0]
            wantResult s2.opstack.length
          .ok { s2 with stack := itm :: s2.stack }
        else if opcode = ADD_OP then
          let s2 := lai_exec_commit_pc s pc1
          let itm := StackItem.opItem ADD_OP
            [LAI_OBJECT_MODE, LAI_OBJECT_MODE, LAI_REFERENCE_MODE, 0]
            wantResult s2.opstack.length
          .ok { s2 with stack := itm :: s2.stack }
        else if opcode = DECREMENT_OP then
          let s2 := lai_exec_commit_pc s pc1
          let itm := StackItem.opItem DECREMENT_OP [LAI_REFERENCE_MODE, 0]
            wantResult s2.opstack.length
          .ok { s2 with stack := itm :: s2.stack }
        else if opcode = NAME_OP then
          let s2 := lai_exec_commit_pc s pc1
          let itm := StackItem.nodeItem NAME_OP [LAI_UNRESOLVED_MODE, LAI_OBJECT_MODE, 0]
            s2.opstack.length
          .ok { s2 with stack := itm :: s2.stack }
        else if opcode = RETURN_OP then
          let s2 := lai_exec_commit_pc s pc1
          .ok { s2 with stack := StackItem.returnItem s2.opstack.length :: s2.stack }
        else if opcode = WHILE_OP then
          match lai_parse_varint code pc1 limit with
          | none => .fail .executionFailure
          | some (loopSize, pcv) =>
            let bodyPc := pcv
            let s2 := lai_exec_commit_pc s (opcodePc + 1 + loopSize)
            let blk2 : BlkItem := { pc := bodyPc, limit := opcodePc + 1 + loopSize }
            let itm := StackItem.loopItem 0 bodyPc s2.opstack.length
            .ok { s2 with blkstack := blk2 :: s2.blkstack, stack := itm :: s2.stack }
        else if opcode = IF_OP then
          match lai_parse_varint code pc1 limit with
          | none => .fail .executionFailure
          | some (ifSize, pcv) =>
            let ifPc := pcv
            let pcAfter := opcodePc + 1 + ifSize
            if pcAfter < limit ∧ code.getD pcAfter 0 = ELSE_OP then
              match lai_parse_varint code (pcAfter + 1) limit with
              | none => .fail .executionFailure
              | some (elseSize, pcv2) =>
                let s2 := lai_exec_commit_pc s (opcodePc + 1 + ifSize + 1 + elseSize)
                let blk2 : BlkItem := { pc := ifPc, limit := pcAfter }
                let itm := StackItem.condItem 0 true pcv2
                  (opcodePc + 1 + ifSize + 1 + elseSize) s2.opstack.length
                .ok { s2 with blkstack := blk2 :: s2.blkstack, stack := itm :: s2.stack }
            else
              let s2 := lai_exec_commit_pc s pcAfter
              let blk2 : BlkItem := { pc := ifPc, limit := pcAfter }
              let itm := StackItem.condItem 0 false 0
                (opcodePc + 1 + ifSize + 1) s2.opstack.length
              .ok { s2 with blkstack := blk2 :: s2.blkstack, stack := itm :: s2.stack }
        else if opcode = BREAK_OP then
          match findLoopDepth s.stack with
          | none => .panicked
          | some m =>
            .ok { s with
              stack := s.stack.drop (m + 1),
              blkstack := s.blkstack.drop (m + 1) }
        else if opcode = CONTINUE_OP then
          match findLoopDepth s.stack with
          | none => .panicked
          | some m =>
            match s.blkstack.drop m with
            | [] => .panicked
            | b :: rest =>
              .ok { s with
                stack := s.stack.drop m,
                blkstack := { b with pc := b.limit } :: rest }
        else .panicked
    else .panicked
  | _, _ => .panicked

/-- lai_exec_process (exec.c): process the top work-stack item — implicit
Return(0) and per-method cleanup for method items, operand collection and
reduction for op/node/invoke items, Return unwinding, loop predicate
re-check and reset, and condition predicate dispatch; items still waiting
for operands delegate to lai_exec_parse. -/
def lai_exec_process (s : LaiState) : XRes LaiState :=
  match s.stack with
  | [] => .panicked
  | item :: rest =>
    match s.ctxstack, s.blkstack with
    | c :: crest, blk :: brest =>
      if blk.pc > blk.limit then .panicked
      else
        match item with
        | .methodItem wantResult =>
          if blk.pc = blk.limit then
            if s.opstack.length ≠ 0 then .panicked
            else
              match c.invocation with
              | none => .panicked
              | some inv =>
                let p := cleanupPerMethod inv.perMethodList s.ns s.heap
                let op2 : List Operand :=
                  if wantResult then [Operand.object (XVar.integer 0)] else []
                .ok { s with ctxstack := crest, blkstack := brest, stack := rest,
                             opstack := op2, ns := p.1, heap := p.2 }
          else lai_exec_parse LAI_EXEC_MODE s
        | .opItem opcode argModes wantResult frame =>
          let k := s.opstack.length - frame
          let mode := argModes.getD k 0
          if mode = 0 then
            match lai_exec_reduce_op opcode s (s.opstack.drop frame) with
            | .ok (s2, result) =>
              let op2 := s2.opstack.take frame
                ++ (if wantResult then [Operand.object result] else [])
              .ok { s2 with stack := s2.stack.drop 1, opstack := op2 }
            | .fail e => .fail e
            | .panicked => .panicked
          else lai_exec_parse mode s
        | .nodeItem opcode argModes frame =>
          let k := s.opstack.length - frame
          let mode := argModes.getD k 0
          if mode = 0 then
            match lai_exec_reduce_node opcode s (s.opstack.drop frame) with
            | .ok s2 =>
              .ok { s2 with stack := s2.stack.drop 1, opstack := s2.opstack.take frame }
            | .fail e => .fail e
            | .panicked => .panicked
          else lai_exec_parse mode s
        | .invokeItem argc wantResult frame =>
          let k := s.opstack.length - frame
          if k = argc + 1 then
            match s.opstack.getD frame .nullName with
            | .resolvedName h =>
              match nsFind s.ns h with
              | some handle =>
                if handle.nodeType ≠ LAI_NAMESPACE_METHOD then .panicked
                else
                  match collectArgs s (frame + 1) argc with
                  | .ok args =>
                    let inv : Invocation :=
                      { args := args ++ List.replicate (7 - argc) XVar.uninit,
                        locals := List.replicate 8 XVar.uninit, perMethodList := [] }
                    let ctx2 : CtxItem :=
                      { code := handle.methodCode, ctxHandle := h, invocation := some inv }
                    let blk2 : BlkItem := { pc := 0, limit := handle.methodCode.length }
                    .ok { s with ctxstack := ctx2 :: s.ctxstack,
                                 blkstack := blk2 :: s.blkstack,
                                 stack := StackItem.methodItem wantResult :: rest,
                                 opstack := s.opstack.take frame }
                  | .fail e => .fail e
                  | .panicked => .panicked
              | none => .panicked
            | _ => .panicked
          else lai_exec_parse LAI_OBJECT_MODE s
        | .returnItem frame =>
          let k := s.opstack.length - frame
          if k = 1 then
            match getObjectrefLenient s (s.opstack.getD frame .nullName) with
            | .ok result =>
              match findMethodDepth rest with
              | none => .panicked
              | some (m, mwant) =>
                match c.invocation with
                | none => .panicked
                | some inv =>
                  let p := cleanupPerMethod inv.perMethodList s.ns s.heap
                  let op2 := s.opstack.take frame
                    ++ (if mwant then [Operand.object result] else [])
                  .ok { s with stack := rest.drop (m + 1),
                               blkstack := s.blkstack.drop (m + 1),
                               ctxstack := crest, opstack := op2,
                               ns := p.1, heap := p.2 }
            | .fail e => .fail e
            | .panicked => .panicked
          else lai_exec_parse LAI_OBJECT_MODE s
        | .loopItem loopState pred frame =>
          if loopState = 0 then
            let k := s.opstack.length - frame
            if k = 1 then
              match lai_exec_get_integer s (s.opstack.getD frame .nullName) with
              | .ok predicate =>
                if predicate ≠ 0 then
                  let itm := StackItem.loopItem LAI_LOOP_ITERATION pred frame
                  .ok { s with stack := itm :: rest, opstack := s.opstack.take frame }
                else
                  .ok { s with stack := rest, blkstack := brest,
                               opstack := s.opstack.take frame }
              | .fail e => .fail e
              | .panicked => .panicked
            else lai_exec_parse LAI_OBJECT_MODE s
          else
            if blk.pc = blk.limit then
              let itm := StackItem.loopItem 0 pred frame
              let blk2 := { blk with pc := pred }
              .ok { s with stack := itm :: rest, blkstack := blk2 :: brest }
            else lai_exec_parse LAI_EXEC_MODE s
        | .condItem condState hasElse elsePc elseLimit frame =>
          if condState = 0 then
            let k := s.opstack.length - frame
            if k = 1 then
              match lai_exec_get_integer s (s.opstack.getD frame .nullName) with
              | .ok predicate =>
                if predicate ≠ 0 then
                  let itm := StackItem.condItem LAI_COND_BRANCH hasElse elsePc elseLimit frame
                  .ok { s with stack := itm :: rest, opstack := s.opstack.take frame }
                else if hasElse then
                  let itm := StackItem.condItem LAI_COND_BRANCH hasElse elsePc elseLimit frame
                  let blk2 : BlkItem := { pc := elsePc, limit := elseLimit }
                  .ok { s with stack := itm :: rest, blkstack := blk2 :: brest,
                               opstack := s.opstack.take frame }
                else
                  .ok { s with stack := rest, blkstack := brest,
                               opstack := s.opstack.take frame }
              | .fail e => .fail e
              | .panicked => .panicked
            else lai_exec_parse LAI_OBJECT_MODE s
          else
            if blk.pc = blk.limit then
              .ok { s with stack := rest, blkstack := brest }
            else lai_exec_parse LAI_EXEC_MODE s
    | _, _ => .panicked

/-- lai_exec_run (exec.c), fuel-bounded: process items until the work stack
is empty; `none` on fuel exhaustion, otherwise the propagated error/panic
or the final state. -/
def lai_exec_run : Nat → LaiState → Option (XRes LaiState)
  | 0, _ => none
  | fuel + 1, s =>
    match s.stack with
    | [] => some (.ok s)
    | _ :: _ =>
      match lai_exec_process s with
      | .ok s2 => lai_exec_run fuel s2
      | .fail e => some (.fail e)
      | .panicked => some .panicked

/-- The sequence of states lai_exec_run visits (the state before each
lai_exec_process call, and the final empty-stack state), truncated at an
error/panic or at fuel exhaustion. -/
def lai_exec_trace : Nat → LaiState → List LaiState
  | 0, _ => []
  | fuel + 1, s =>
    s ::
      (match s.stack with
       | [] => []
       | _ :: _ =>
         match lai_exec_process s with
         | .ok s2 => lai_exec_trace fuel s2
         | _ => [])

/-- The LAI_NAMESPACE_METHOD branch of lai_eval_args (exec.c): the initial
interpreter state for evaluating an argument-less method — one ctxitem with
a fresh invocation, one block over the whole body, one method stack item
with mth_want_result = 1. -/
def initMethodState (ns : Namespace) (heap : RcHeap) (mth nextId : Nat) :
    Option LaiState :=
  match nsFind ns mth with
  | some node =>
    if node.nodeType = LAI_NAMESPACE_METHOD then
      let inv : Invocation :=
        { args := List.replicate 7 XVar.uninit, locals := List.replicate 8 XVar.uninit,
          perMethodList := [] }
      let ctx : CtxItem := { code := node.methodCode, ctxHandle := mth, invocation := some inv }
      some { ctxstack := [ctx], blkstack := [{ pc := 0, limit := node.methodCode.length }],
             stack := [StackItem.methodItem true], opstack := [], ns := ns, heap := heap,
             nextNodeId := nextId }
    else none
  | none => none

/-! ## Concrete verification programs (§8)

Small namespaces and AML method bodies exercising the interpreter slice.
Node ids: 1 = root, 2 = the evaluated method, 3 = a callee method. -/

/-- The root namespace node. -/
def rootNode : NsNode :=
  { nodeId := 1, parentId := none, nameSeg := [92, 0, 0, 0],
    nodeType := LAI_NAMESPACE_ROOT, obj := .uninit, bfBuffer := none,
    methodCode := [], methodFlags := 0 }

/-- A method node (id 2, named MTH_) under the root carrying the given
body. -/
def mthNode (code : List Nat) : NsNode :=
  { nodeId := 2, parentId := some 1, nameSeg := [77, 84, 72, 95],
    nodeType := LAI_NAMESPACE_METHOD, obj := .uninit, bfBuffer := none,
    methodCode := code, methodFlags := 0 }

/-- A callee method node (id 3, named MAB_) with an empty body. -/
def mabNode : NsNode :=
  { nodeId := 3, parentId := some 1, nameSeg := [77, 65, 66, 95],
    nodeType := LAI_NAMESPACE_METHOD, obj := .uninit, bfBuffer := none,
    methodCode := [], methodFlags := 0 }

/-- Namespace of a single argument-less method under the root. -/
def nsOf (code : List Nat) : Namespace := [rootNode, mthNode code]

/-- Store(3, Local0); While (Local0) { Decrement(Local0) } — a While with a
3-counting-down predicate. -/
def whileProg3count : List Nat := [112, 10, 3, 96, 162, 4, 96, 118, 96]

/-- Store(3, Local0); While (Local0) { If (One) { Break }; Decrement(Local0) }
— a Break inside an If inside the While. -/
def whileProgBreak : List Nat := [112, 10, 3, 96, 162, 8, 96, 160, 3, 1, 165, 118, 96]

/-- Store(3, Local0); While (Local0) { Decrement(Local0); If (One) { Continue };
Decrement(Local0) } — a Continue that skips the rest of the iteration. -/
def whileProgContinue : List Nat :=
  [112, 10, 3, 96, 162, 10, 96, 118, 96, 160, 3, 1, 159, 118, 96]

/-- Name(FOO_, 5); Noop — a dynamic Name whose method falls through. -/
def nameProgFall : List Nat := [8, 70, 79, 79, 95, 10, 5, 163]

/-- Name(FOO_, 5); Return(1) — a dynamic Name whose method returns
explicitly. -/
def nameProgReturn : List Nat := [8, 70, 79, 79, 95, 10, 5, 164, 10, 1]

/-- Add(1, MAB_(), <null target>) — a nested invocation of the empty method
MAB_ in the middle of an Add whose own operand is already on the operand
stack. -/
def addNestedProg : List Nat := [114, 10, 1, 77, 65, 66, 95, 0]

/-- The 4-byte name segment FOO_. -/
def fooSeg : List Nat := [70, 79, 79, 95]

/-- Evaluate method node 2 of the given namespace (lai_eval_args) and
project the final operand stack. -/
def runOpstack (ns : Namespace) (fuel : Nat) : Option (XRes (List Operand)) :=
  match initMethodState ns [] 2 10 with
  | some s =>
    match lai_exec_run fuel s with
    | some (.ok s2) => some (.ok s2.opstack)
    | some (.fail e) => some (.fail e)
    | some .panicked => some .panicked
    | none => none
  | none => none

/-- Evaluate method node 2 and project the final namespace. -/
def runNs (ns : Namespace) (fuel : Nat) : Option Namespace :=
  match initMethodState ns [] 2 10 with
  | some s =>
    match lai_exec_run fuel s with
    | some (.ok s2) => some s2.ns
    | _ => none
  | none => none

/-- The state trace of evaluating method node 2. -/
def traceMethod (ns : Namespace) (fuel : Nat) : List LaiState :=
  match initMethodState ns [] 2 10 with
  | some s => lai_exec_trace fuel s
  | none => []

/-- States at which lai_exec_process evaluates a While predicate: the top
item is a loop item in predicate-check state with its operand present. -/
def isPredCheck (s : LaiState) : Bool :=
  match s.stack with
  | .loopItem ls _ frame :: _ => decide (ls = 0 ∧ s.opstack.length = frame + 1)
  | _ => false

/-- Predicate-check states whose predicate value is nonzero: the step that
enters one body iteration. -/
def isBodyEntry (s : LaiState) : Bool :=
  match s.stack with
  | .loopItem ls _ frame :: _ =>
    decide (ls = 0 ∧ s.opstack.length = frame + 1) &&
      (match lai_exec_get_integer s (s.opstack.getD frame .nullName) with
       | .ok v => decide (v ≠ 0)
       | _ => false)
  | _ => false

/-- States at which lai_exec_process reduces a DecrementOp (its operand list
is complete): one per executed Decrement. -/
def isDecReduce (s : LaiState) : Bool :=
  match s.stack with
  | .opItem opcode argModes _ frame :: _ =>
    decide (opcode = DECREMENT_OP ∧ argModes.getD (s.opstack.length - frame) 0 = 0)
  | _ => false

/-- Uninstalling a node removes it: nsFind no longer finds the id. -/
theorem nsFind_uninstall_self (ns : Namespace) (nid : Nat) :
    nsFind (lai_uninstall_nsnode ns nid) nid = none := by
  rw [nsFind, List.find?_eq_none]
  intro x hx
  rcases List.mem_filter.mp hx with ⟨hmem, hpred⟩
  simpa using hpred

/-- cleanupOne never re-introduces a node: absence is preserved. -/
theorem nsFind_none_mono_cleanupOne (ns : Namespace) (heap : RcHeap) (a nid : Nat)
    (h : nsFind ns nid = none) : nsFind (cleanupOne ns heap a).1 nid = none := by
  rw [cleanupOne]
  rw [nsFind, List.find?_eq_none] at h ⊢
  intro x hx
  exact h x (List.mem_filter.mp hx).1

/-- After the per-method cleanup loop, every node id on the list (and every
id already absent) is absent from the namespace. -/
theorem nsFind_cleanupPerMethod_none :
    ∀ (l : List Nat) (ns : Namespace) (heap : RcHeap) (nid : Nat),
      (nid ∈ l ∨ nsFind ns nid = none) →
      nsFind (cleanupPerMethod l ns heap).1 nid = none := by
  intro l
  induction l with
  | nil =>
    intro ns heap nid h
    rcases h with h | h
    · simp at h
    · simpa [cleanupPerMethod] using h
  | cons a rest ih =>
    intro ns heap nid h
    rw [cleanupPerMethod]
    by_cases hna : nid = a
    · subst hna
      apply ih
      right
      have huni : nsFind (lai_uninstall_nsnode ns nid) nid = none := nsFind_uninstall_self ns nid
      simpa [cleanupOne] using huni
    · rcases h with h | h
      · rcases List.mem_cons.mp h with h1 | h2
        · exact absurd h1 hna
        · exact ih _ _ _ (Or.inl h2)
      · exact ih _ _ _ (Or.inr (nsFind_none_mono_cleanupOne ns heap a nid h))

/-- Context item of the C1 witness states (no code / trivial code). -/
def wLoopCtx : CtxItem := { code := [], ctxHandle := 1, invocation := none }

/-- C1 witness: a loop item in iteration state whose block reached its
limit. -/
def wLoopState : LaiState :=
  { ctxstack := [wLoopCtx], blkstack := [{ pc := 5, limit := 5 }],
    stack := [StackItem.loopItem 1 3 0], opstack := [], ns := [], heap := [], nextNodeId := 0 }

/-- C1 witness: a loop item in predicate-check state with its predicate
operand (the integer 2) on the operand stack. -/
def wPredState : LaiState :=
  { ctxstack := [wLoopCtx], blkstack := [{ pc := 5, limit := 5 }],
    stack := [StackItem.loopItem 0 3 0], opstack := [Operand.object (XVar.integer 2)],
    ns := [], heap := [], nextNodeId := 0 }

/-- Context item whose code is a single BreakOp. -/
def wBreakCtx : CtxItem := { code := [165], ctxHandle := 1, invocation := none }

/-- C1 witness: about to parse a BreakOp directly inside a loop body. -/
def wBreakState : LaiState :=
  { ctxstack := [wBreakCtx], blkstack := [{ pc := 0, limit := 1 }],
    stack := [StackItem.loopItem 1 0 0], opstack := [], ns := [], heap := [], nextNodeId := 0 }

/-- Context item whose code is a single ContinueOp. -/
def wContCtx : CtxItem := { code := [159], ctxHandle := 1, invocation := none }

/-- C1 witness: about to parse a ContinueOp directly inside a loop body. -/
def wContState : LaiState :=
  { ctxstack := [wContCtx], blkstack := [{ pc := 0, limit := 1 }],
    stack := [StackItem.loopItem 1 0 0], opstack := [], ns := [], heap := [], nextNodeId := 0 }

/-- C1: while-loop control flow.  (1) A loop item in iteration state whose
block pc reached the limit resets to predicate-check state and rewinds pc
to the predicate.  (2) A loop item in predicate-check state with its
operand present consumes it, entering an iteration exactly when the
predicate is nonzero and popping the loop (and its block) when it is zero —
so the predicate is evaluated before every body execution, including the
first.  (3) Parsing BreakOp pops the skipped condition items and the
nearest enclosing loop immediately.  (4) Parsing ContinueOp pops the
skipped condition items and sets the loop block's pc to its limit, forcing
a predicate re-check.  (5) Concretely, a While with a 3-counting-down
predicate runs its body exactly 3 times (4 predicate evaluations, 3
decrements); with a Break inside a nested If the body is entered once and
the decrement after the If never runs; with a Continue inside a nested If
the second decrement of each iteration is skipped (3 decrements, not 6);
all three methods fall through to Integer(0). -/
theorem while_predicate_reeval_break_continue :
    (∀ (s : LaiState) (pred frame : Nat) (rest : List StackItem) (c : CtxItem)
        (crest : List CtxItem) (blk : BlkItem) (brest : List BlkItem),
        s.stack = StackItem.loopItem LAI_LOOP_ITERATION pred frame :: rest →
        s.ctxstack = c :: crest → s.blkstack = blk :: brest → blk.pc = blk.limit →
        lai_exec_process s =
          .ok { s with stack := StackItem.loopItem 0 pred frame :: rest,
                       blkstack := { blk with pc := pred } :: brest })
    ∧ (∀ (s : LaiState) (pred frame v : Nat) (rest : List StackItem) (c : CtxItem)
        (crest : List CtxItem) (blk : BlkItem) (brest : List BlkItem),
        s.stack = StackItem.loopItem 0 pred frame :: rest →
        s.ctxstack = c :: crest → s.blkstack = blk :: brest → blk.pc ≤ blk.limit →
        s.opstack.length = frame + 1 →
        lai_exec_get_integer s (s.opstack.getD frame .nullName) = .ok v →
        lai_exec_process s =
          (if v ≠ 0 then
            .ok { s with stack := StackItem.loopItem LAI_LOOP_ITERATION pred frame :: rest,
                         opstack := s.opstack.take frame }
          else
            .ok { s with stack := rest, blkstack := brest,
                         opstack := s.opstack.take frame }))
    ∧ (∀ (s : LaiState) (m : Nat) (c : CtxItem) (crest : List CtxItem) (blk : BlkItem)
        (brest : List BlkItem),
        s.ctxstack = c :: crest → s.blkstack = blk :: brest → blk.pc < blk.limit →
        c.code.getD blk.pc 0 = BREAK_OP → findLoopDepth s.stack = some m →
        lai_exec_parse LAI_EXEC_MODE s =
          .ok { s with stack := s.stack.drop (m + 1),
                       blkstack := s.blkstack.drop (m + 1) })
    ∧ (∀ (s : LaiState) (m : Nat) (b : BlkItem) (rest2 : List BlkItem) (c : CtxItem)
        (crest : List CtxItem) (blk : BlkItem) (brest : List BlkItem),
        s.ctxstack = c :: crest → s.blkstack = blk :: brest → blk.pc < blk.limit →
        c.code.getD blk.pc 0 = CONTINUE_OP → findLoopDepth s.stack = some m →
        s.blkstack.drop m = b :: rest2 →
        lai_exec_parse LAI_EXEC_MODE s =
          .ok { s with stack := s.stack.drop m,
                       blkstack := { b with pc := b.limit } :: rest2 })
    ∧ (runOpstack (nsOf whileProg3count) 30 = some (.ok [Operand.object (XVar.integer 0)])
        ∧ (traceMethod (nsOf whileProg3count) 30).countP isPredCheck = 4
        ∧ (traceMethod (nsOf whileProg3count) 30).countP isBodyEntry = 3
        ∧ (traceMethod (nsOf whileProg3count) 30).countP isDecReduce = 3
        ∧ runOpstack (nsOf whileProgBreak) 15 = some (.ok [Operand.object (XVar.integer 0)])
        ∧ (traceMethod (nsOf whileProgBreak) 15).countP isPredCheck = 1
        ∧ (traceMethod (nsOf whileProgBreak) 15).countP isBodyEntry = 1
        ∧ (traceMethod (nsOf whileProgBreak) 15).countP isDecReduce = 0
        ∧ runOpstack (nsOf whileProgContinue) 40 = some (.ok [Operand.object (XVar.integer 0)])
        ∧ (traceMethod (nsOf whileProgContinue) 40).countP isPredCheck = 4
        ∧ (traceMethod (nsOf whileProgContinue) 40).countP isBodyEntry = 3
        ∧ (traceMethod (nsOf whileProgContinue) 40).countP isDecReduce = 3) := by
  refine ⟨?_, ?_, ?_, ?_, ?_⟩
  · intro s pred frame rest c crest blk brest hstack hctx hblk hpc
    simp [lai_exec_process, hstack, hctx, hblk, hpc, LAI_LOOP_ITERATION]
  · intro s pred frame v rest c crest blk brest hstack hctx hblk hpc hlen hget
    have hk : s.opstack.length - frame = 1 := by omega
    have hnot : ¬ (blk.pc > blk.limit) := by omega
    have hget2 : s.opstack[frame]?.getD Operand.nullName = s.opstack.getD frame .nullName :=
      (List.getD_eq_getElem?_getD _ _ _).symm
    by_cases hv : v = 0
    · simp [lai_exec_process, hstack, hctx, hblk, hnot, hk, hv]
      rw [hget2, hget]
      simp [hv]
    · simp [lai_exec_process, hstack, hctx, hblk, hnot, hk, hv]
      rw [hget2, hget]
      simp [hv]
  · intro s m c crest blk brest hctx hblk hpc hb hfind
    rw [List.getD_eq_getElem?_getD] at hb
    simp [lai_exec_parse, hctx, hblk, hpc, hb, hfind, lai_is_name, BREAK_OP, NOOP_OP,
      ZERO_OP, ONE_OP, BYTE_PREFIX_OP, LOCAL0_OP, STORE_OP, ADD_OP, DECREMENT_OP,
      NAME_OP, RETURN_OP, WHILE_OP, IF_OP, CONTINUE_OP]
  · intro s m b rest2 c crest blk brest hctx hblk hpc hb hfind hdrop
    rw [List.getD_eq_getElem?_getD] at hb
    rw [hblk] at hdrop
    simp [lai_exec_parse, hctx, hblk, hpc, hb, hfind, hdrop, lai_is_name, BREAK_OP, NOOP_OP,
      ZERO_OP, ONE_OP, BYTE_PREFIX_OP, LOCAL0_OP, STORE_OP, ADD_OP, DECREMENT_OP,
      NAME_OP, RETURN_OP, WHILE_OP, IF_OP, CONTINUE_OP]
  · decide

/-- Witness for C1: the four general conjuncts applied at the concrete
states above — the loop reset, a nonzero predicate check, a Break directly
inside a loop, and a Continue directly inside a loop. -/
theorem while_predicate_reeval_break_continue_witness :
    lai_exec_process wLoopState =
      .ok { wLoopState with stack := [StackItem.loopItem 0 3 0],
                            blkstack := [{ pc := 3, limit := 5 }] }
    ∧ lai_exec_process wPredState =
      .ok { wPredState with stack := [StackItem.loopItem 1 3 0], opstack := [] }
    ∧ lai_exec_parse LAI_EXEC_MODE wBreakState =
      .ok { wBreakState with stack := [], blkstack := [] }
    ∧ lai_exec_parse LAI_EXEC_MODE wContState =
      .ok { wContState with stack := [StackItem.loopItem 1 0 0],
                            blkstack := [{ pc := 1, limit := 1 }] } := by
  refine ⟨?_, ?_, ?_, ?_⟩
  · exact while_predicate_reeval_break_continue.1 wLoopState 3 0 [] wLoopCtx []
      { pc := 5, limit := 5 } [] rfl rfl rfl rfl
  · have h := while_predicate_reeval_break_continue.2.1 wPredState 3 0 2 [] wLoopCtx []
      { pc := 5, limit := 5 } [] rfl rfl rfl (by decide) (by decide) (by decide)
    simpa using h
  · exact while_predicate_reeval_break_continue.2.2.1 wBreakState 0 wBreakCtx []
      { pc := 0, limit := 1 } [] rfl rfl (by decide) (by decide) (by decide)
  · exact while_predicate_reeval_break_continue.2.2.2.1 wContState 0
      { pc := 0, limit := 1 } [] wContCtx [] { pc := 0, limit := 1 } [] rfl rfl
      (by decide) (by decide) (by decide) rfl

/-- C2 witness: a dynamic Name node (id 7) created under method node 2. -/
def wNode7 : NsNode :=
  { nodeId := 7, parentId := some 2, nameSeg := fooSeg, nodeType := LAI_NAMESPACE_NAME,
    obj := XVar.integer 5, bfBuffer := none, methodCode := [], methodFlags := 0 }

/-- C2 witness: an invocation whose per-method creation list holds node 7. -/
def wInv : Invocation := { args := [], locals := [], perMethodList := [7] }

/-- C2 witness: the context item of a completed method frame (pc at
limit). -/
def wMthCtx : CtxItem := { code := [], ctxHandle := 2, invocation := some wInv }

/-- C2 witness: a method frame about to fall through with node 7 on its
per-method list. -/
def wMthState : LaiState :=
  { ctxstack := [wMthCtx], blkstack := [{ pc := 0, limit := 0 }],
    stack := [StackItem.methodItem true], opstack := [],
    ns := [rootNode, mthNode [], wNode7], heap := [], nextNodeId := 8 }

/-- C2 witness: a buffer-field node (id 9) backed by buffer 3. -/
def wBfNode : NsNode :=
  { nodeId := 9, parentId := some 2, nameSeg := [66, 70, 95, 95],
    nodeType := LAI_NAMESPACE_BUFFER_FIELD, obj := .uninit, bfBuffer := some 3,
    methodCode := [], methodFlags := 0 }

/-- C2: per-method namespace cleanup.  (1) On implicit fall-through of a
method body, every node id on the invocation's per-method creation list is
absent from the resulting namespace.  (2) The same holds on the explicit
Return path.  (3) Uninstalling a buffer-field node releases one reference
of its backing buffer, and frees it (removes it from the heap) when the
count was at 1.  (4) Concretely, a Name(FOO_, 5) created during an
invocation is resolvable mid-trace both by direct and by search-rule
resolution, and absent from the final namespace, on both completion paths;
the fall-through method returns Integer(0), the Return(1) method returns
Integer(1). -/
theorem per_method_nodes_uninstalled_on_completion :
    (∀ (s : LaiState) (wantResult : Bool) (rest : List StackItem) (c : CtxItem)
        (crest : List CtxItem) (inv : Invocation) (blk : BlkItem) (brest : List BlkItem),
        s.stack = StackItem.methodItem wantResult :: rest →
        s.ctxstack = c :: crest → c.invocation = some inv →
        s.blkstack = blk :: brest → blk.pc = blk.limit → s.opstack = [] →
        lai_exec_process s =
          .ok { s with ctxstack := crest, blkstack := brest, stack := rest,
                       opstack := if wantResult then [Operand.object (XVar.integer 0)] else [],
                       ns := (cleanupPerMethod inv.perMethodList s.ns s.heap).1,
                       heap := (cleanupPerMethod inv.perMethodList s.ns s.heap).2 }
        ∧ ∀ nid ∈ inv.perMethodList,
            nsFind (cleanupPerMethod inv.perMethodList s.ns s.heap).1 nid = none)
    ∧ (∀ (s : LaiState) (frame m : Nat) (mwant : Bool) (result : XVar)
        (rest : List StackItem) (c : CtxItem) (crest : List CtxItem) (inv : Invocation)
        (blk : BlkItem) (brest : List BlkItem),
        s.stack = StackItem.returnItem frame :: rest →
        s.ctxstack = c :: crest → c.invocation = some inv →
        s.blkstack = blk :: brest → blk.pc ≤ blk.limit →
        s.opstack.length = frame + 1 →
        getObjectrefLenient s (s.opstack.getD frame .nullName) = .ok result →
        findMethodDepth rest = some (m, mwant) →
        lai_exec_process s =
          .ok { s with stack := rest.drop (m + 1), blkstack := s.blkstack.drop (m + 1),
                       ctxstack := crest,
                       opstack := s.opstack.take frame
                         ++ (if mwant then [Operand.object result] else []),
                       ns := (cleanupPerMethod inv.perMethodList s.ns s.heap).1,
                       heap := (cleanupPerMethod inv.perMethodList s.ns s.heap).2 }
        ∧ ∀ nid ∈ inv.perMethodList,
            nsFind (cleanupPerMethod inv.perMethodList s.ns s.heap).1 nid = none)
    ∧ (∀ (ns : Namespace) (heap : RcHeap) (nid bid : Nat) (node : NsNode),
        nsFind ns nid = some node →
        node.nodeType = LAI_NAMESPACE_BUFFER_FIELD →
        node.bfBuffer = some bid →
        rcOf (cleanupOne ns heap nid).2 bid = rcOf heap bid - 1
        ∧ (rcOf heap bid ≤ 1 →
            List.find? (fun p => p.1 = bid) (cleanupOne ns heap nid).2 = none))
    ∧ (runOpstack (nsOf nameProgFall) 10 = some (.ok [Operand.object (XVar.integer 0)])
        ∧ (traceMethod (nsOf nameProgFall) 10).any
            (fun st => decide (lai_do_resolve st.ns (st.ns.length + 1) 2 fooSeg = some 10)
              && (resolveInScope st.ns (some 2) fooSeg).isSome) = true
        ∧ (runNs (nsOf nameProgFall) 10).map
            (fun n => lai_do_resolve n (n.length + 1) 2 fooSeg) = some none
        ∧ runOpstack (nsOf nameProgReturn) 10 = some (.ok [Operand.object (XVar.integer 1)])
        ∧ (traceMethod (nsOf nameProgReturn) 10).any
            (fun st => decide (lai_do_resolve st.ns (st.ns.length + 1) 2 fooSeg = some 10)
              && (resolveInScope st.ns (some 2) fooSeg).isSome) = true
        ∧ (runNs (nsOf nameProgReturn) 10).map
            (fun n => lai_do_resolve n (n.length + 1) 2 fooSeg) = some none) := by
  refine ⟨?_, ?_, ?_, ?_⟩
  · intro s wantResult rest c crest inv blk brest hstack hctx hinv hblk hpc hop
    constructor
    · simp [lai_exec_process, hstack, hctx, hinv, hblk, hpc, hop]
    · intro nid hmem
      exact nsFind_cleanupPerMethod_none _ _ _ _ (Or.inl hmem)
  · intro s frame m mwant result rest c crest inv blk brest hstack hctx hinv hblk hpc
      hlen hres hfind
    have hk : s.opstack.length - frame = 1 := by omega
    have hnot : ¬ (blk.pc > blk.limit) := by omega
    have hres2 : s.opstack[frame]?.getD Operand.nullName = s.opstack.getD frame .nullName :=
      (List.getD_eq_getElem?_getD _ _ _).symm
    constructor
    · simp [lai_exec_process, hstack, hctx, hinv, hblk, hnot, hk]
      rw [hres2, hres]
      simp [hfind, hblk]
    · intro nid hmem
      exact nsFind_cleanupPerMethod_none _ _ _ _ (Or.inl hmem)
  · intro ns heap nid bid node hfindn htype hbuf
    have hheap : (cleanupOne ns heap nid).2 = (lai_rc_unref heap bid).1 := by
      simp [cleanupOne, hfindn, htype, hbuf]
    rw [hheap]
    constructor
    · rw [lai_rc_unref, rcOf]
      rcases hfp : List.find? (fun p => p.1 = bid) heap with _ | p
      · simp [rcOf, hfp]
      · have hpb : p.1 = bid := by simpa using List.find?_some hfp
        by_cases hle : p.2 ≤ 1
        · simp only [hfp, hle, if_true]
          rw [rcOf]
          have hnone :
              List.find? (fun p => p.1 = bid) (List.filter (fun q => q.1 ≠ bid) heap)
                = none := by
            rw [List.find?_eq_none]
            intro x hx
            simpa using (List.mem_filter.mp hx).2
          rw [hnone]
          simp [hfp]
          omega
        · simp only [hfp, hle, if_false]
          rw [rcOf, List.find?_map]
          have hcomp :
              ((fun q : Nat × Nat => decide (q.1 = bid))
                ∘ fun q : Nat × Nat => if q.1 = bid then (q.1, p.2 - 1) else q)
              = fun q : Nat × Nat => decide (q.1 = bid) := by
            funext q
            by_cases h : q.1 = bid <;> simp [h]
          rw [hcomp, hfp]
          simp [rcOf, hfp, hpb]
    · intro hle1
      rcases hfp : List.find? (fun p => p.1 = bid) heap with _ | p
      · simp only [lai_rc_unref, hfp]
      · have hpb : p.1 = bid := by simpa using List.find?_some hfp
        have hp2 : p.2 ≤ 1 := by
          have hrc : rcOf heap bid = p.2 := by simp [rcOf, hfp]
          omega
        simp only [lai_rc_unref, hfp, hp2, if_true]
        rw [List.find?_eq_none]
        intro x hx
        simpa using (List.mem_filter.mp hx).2
  · decide

/-- Witness for C2: the fall-through conjunct applied at a concrete method
frame whose per-method list holds node 7 (absent afterwards), and the
buffer-field conjunct applied at a concrete heap where buffer 3 has
refcount 2. -/
theorem per_method_nodes_uninstalled_on_completion_witness :
    lai_exec_process wMthState =
      .ok { wMthState with ctxstack := [], blkstack := [], stack := [],
                           opstack := [Operand.object (XVar.integer 0)],
                           ns := (cleanupPerMethod wInv.perMethodList wMthState.ns
                             wMthState.heap).1,
                           heap := (cleanupPerMethod wInv.perMethodList wMthState.ns
                             wMthState.heap).2 }
    ∧ nsFind (cleanupPerMethod wInv.perMethodList wMthState.ns wMthState.heap).1 7 = none
    ∧ rcOf (cleanupOne [wBfNode] [(3, 2)] 9).2 3 = rcOf [(3, 2)] 3 - 1 := by
  have h := per_method_nodes_uninstalled_on_completion.1 wMthState true []
    wMthCtx [] wInv { pc := 0, limit := 0 } [] rfl rfl rfl rfl rfl rfl
  have hrc := per_method_nodes_uninstalled_on_completion.2.2.1 [wBfNode] [(3, 2)] 9 3
    wBfNode (by decide) (by decide) (by decide)
  exact ⟨h.1, h.2 7 (by decide), hrc.1⟩

/-- C6: the implicit Return(Integer(0)).  A top-level evaluation of a
method whose empty body falls through produces exactly Integer(0) on the
operand stack (and the 3-counting-down While method likewise falls through
to Integer(0)).  But the property does not hold for every invocation whose
caller wants a result: when the fallen-through method was invoked from
inside an expression (Add(1, MAB_(), <null>)), the caller's pending operand
makes opstack_ptr nonzero and lai_exec_process panics ("opstack is not
empty before return") instead of producing Integer(0). -/
theorem implicit_return_zero_top_level_but_nested_invocation_panics :
    runOpstack [rootNode, mthNode []] 5 = some (.ok [Operand.object (XVar.integer 0)])
    ∧ runOpstack (nsOf nameProgFall) 10 = some (.ok [Operand.object (XVar.integer 0)])
    ∧ runOpstack [rootNode, mthNode addNestedProg, mabNode] 10 = some .panicked := by
  refine ⟨by decide, by decide, by decide⟩
